import Mathlib

/-!
Verification of the connection core of the Cigarettes P2P encrypted chat
(`src/core/crypto.py`, `src/core/hosts.py`, `src/network/connection*.py`).

The Python source is shallowly embedded: byte strings become `List Nat`
(each entry one byte), stateful objects become explicit state records, and
fallible operations return `Except`/`Option`.  Primitives supplied by the
external `cryptography` library (AES-GCM, SHA-256, HKDF, ECDH, ECDSA) are
not part of the repository; they are modelled from the specification's
stated contract, each such definition carrying a doc comment that starts
with `Modelled from the spec:`.
-/

namespace Cig

/-- A byte string: a list of naturals, each representing one byte. -/
abbrev Bytes := List Nat

/-- Python `int.to_bytes(w, 'big')`: fixed-width big-endian encoding. -/
def natToBytesBE : Nat → Nat → Bytes
  | 0, _ => []
  | w + 1, v => natToBytesBE w (v / 256) ++ [v % 256]

/-- Python `int.from_bytes(l, 'big')`: big-endian decoding. -/
def bytesToNatBE (l : Bytes) : Nat :=
  l.foldl (fun a b => a * 256 + b) 0

theorem length_natToBytesBE (w v : Nat) : (natToBytesBE w v).length = w := by
  induction w generalizing v with
  | zero => rfl
  | succ w ih => simp [natToBytesBE, ih]

theorem bytesToNatBE_append_singleton (l : Bytes) (b : Nat) :
    bytesToNatBE (l ++ [b]) = bytesToNatBE l * 256 + b := by
  simp [bytesToNatBE, List.foldl_append]

theorem bytesToNatBE_natToBytesBE (w v : Nat) :
    bytesToNatBE (natToBytesBE w v) = v % 256 ^ w := by
  induction w generalizing v with
  | zero => simp [natToBytesBE, bytesToNatBE, Nat.mod_one]
  | succ w ih =>
    rw [natToBytesBE, bytesToNatBE_append_singleton, ih, pow_succ', Nat.mod_mul]
    ring

theorem natToBytesBE_injOn {w a b : Nat} (ha : a < 256 ^ w) (hb : b < 256 ^ w)
    (h : natToBytesBE w a = natToBytesBE w b) : a = b := by
  have := congrArg bytesToNatBE h
  rwa [bytesToNatBE_natToBytesBE, bytesToNatBE_natToBytesBE,
    Nat.mod_eq_of_lt ha, Nat.mod_eq_of_lt hb] at this

theorem mem_natToBytesBE_lt {w v b : Nat} (h : b ∈ natToBytesBE w v) : b < 256 := by
  induction w generalizing v with
  | zero => simp [natToBytesBE] at h
  | succ w ih =>
    simp only [natToBytesBE, List.mem_append, List.mem_singleton] at h
    rcases h with h | h
    · exact ih h
    · omega

/-- UTF-8 encoding of a single Unicode code point (Python `str.encode()`
acts code point by code point). -/
def utf8EncodeCodepoint (n : Nat) : Bytes :=
  if n < 0x80 then [n]
  else if n < 0x800 then [0xC0 + n / 64, 0x80 + n % 64]
  else if n < 0x10000 then [0xE0 + n / 4096, 0x80 + n / 64 % 64, 0x80 + n % 64]
  else [0xF0 + n / 262144, 0x80 + n / 4096 % 64, 0x80 + n / 64 % 64, 0x80 + n % 64]

/-- Whether a byte is a UTF-8 continuation byte `10xxxxxx`. -/
def isCont (b : Nat) : Bool := 0x80 ≤ b && b < 0xC0

/-- Parse one UTF-8 sequence from the front of a byte string, returning the
decoded code point and the remaining bytes; rejects truncated, overlong and
surrogate/out-of-range sequences. -/
def utf8DecodeOne : Bytes → Option (Nat × Bytes)
  | [] => none
  | b :: rest =>
    if b < 0x80 then some (b, rest)
    else if b < 0xC0 then none
    else if b < 0xE0 then
      let b1 := rest.getD 0 0
      if 1 ≤ rest.length ∧ isCont b1 = true then
        let n := (b - 0xC0) * 64 + (b1 - 0x80)
        if 0x80 ≤ n then some (n, rest.drop 1) else none
      else none
    else if b < 0xF0 then
      let b1 := rest.getD 0 0
      let b2 := rest.getD 1 0
      if 2 ≤ rest.length ∧ isCont b1 = true ∧ isCont b2 = true then
        let n := (b - 0xE0) * 4096 + (b1 - 0x80) * 64 + (b2 - 0x80)
        if 0x800 ≤ n ∧ ¬(0xD800 ≤ n ∧ n < 0xE000) then some (n, rest.drop 2) else none
      else none
    else if b < 0xF8 then
      let b1 := rest.getD 0 0
      let b2 := rest.getD 1 0
      let b3 := rest.getD 2 0
      if 3 ≤ rest.length ∧ isCont b1 = true ∧ isCont b2 = true ∧ isCont b3 = true then
        let n := (b - 0xF0) * 262144 + (b1 - 0x80) * 4096 + (b2 - 0x80) * 64 + (b3 - 0x80)
        if 0x10000 ≤ n ∧ n < 0x110000 then some (n, rest.drop 3) else none
      else none
    else none

/-- UTF-8 decoding to a list of code points (Python `bytes.decode()`);
`fuel` bounds the number of sequences and is instantiated to the byte count. -/
def utf8DecodeAux : Nat → Bytes → Option (List Nat)
  | _, [] => some []
  | 0, _ :: _ => none
  | fuel + 1, b :: rest =>
    match utf8DecodeOne (b :: rest) with
    | none => none
    | some (n, r) => (utf8DecodeAux fuel r).map (n :: ·)

/-- UTF-8 decoding of a whole byte string to code points. -/
def utf8DecodeCodepoints (l : Bytes) : Option (List Nat) :=
  utf8DecodeAux l.length l

/-- A code point a `Char` may hold (Unicode scalar value). -/
def ValidCodepoint (n : Nat) : Prop :=
  n < 0x110000 ∧ ¬(0xD800 ≤ n ∧ n < 0xE000)

theorem utf8EncodeCodepoint_shape (n : Nat) :
    ∃ b bs, utf8EncodeCodepoint n = b :: bs := by
  unfold utf8EncodeCodepoint
  split_ifs <;> exact ⟨_, _, rfl⟩

theorem utf8DecodeOne_encode {n : Nat} (h : ValidCodepoint n) (rest : Bytes) :
    utf8DecodeOne (utf8EncodeCodepoint n ++ rest) = some (n, rest) := by
  obtain ⟨h1, h2⟩ := h
  unfold utf8EncodeCodepoint
  by_cases ha : n < 0x80
  · simp only [if_pos ha, List.cons_append, List.nil_append, utf8DecodeOne, ha, if_pos]
  · by_cases hb : n < 0x800
    · simp only [if_neg ha, if_pos hb, List.cons_append, List.nil_append, utf8DecodeOne]
      have e1 : ¬(0xC0 + n / 64 < 0x80) := by omega
      have e2 : ¬(0xC0 + n / 64 < 0xC0) := by omega
      have e3 : 0xC0 + n / 64 < 0xE0 := by omega
      simp only [if_neg e1, if_neg e2, if_pos e3, List.getD_cons_zero, List.length_cons]
      have e4 : isCont (0x80 + n % 64) = true := by
        simp only [isCont, Bool.and_eq_true, decide_eq_true_eq]
        omega
      rw [if_pos ⟨by omega, e4⟩, if_pos (by omega)]
      simp only [List.drop_succ_cons, List.drop_zero, Option.some.injEq, Prod.mk.injEq]
      exact ⟨by omega, trivial⟩
    · by_cases hc : n < 0x10000
      · simp only [if_neg ha, if_neg hb, if_pos hc, List.cons_append, List.nil_append,
          utf8DecodeOne]
        have e1 : ¬(0xE0 + n / 4096 < 0x80) := by omega
        have e2 : ¬(0xE0 + n / 4096 < 0xC0) := by omega
        have e3 : ¬(0xE0 + n / 4096 < 0xE0) := by omega
        have e4 : 0xE0 + n / 4096 < 0xF0 := by omega
        simp only [if_neg e1, if_neg e2, if_neg e3, if_pos e4, List.getD_cons_zero,
          List.getD_cons_succ, List.length_cons]
        have e5 : isCont (0x80 + n / 64 % 64) = true := by
          simp only [isCont, Bool.and_eq_true, decide_eq_true_eq]
          omega
        have e6 : isCont (0x80 + n % 64) = true := by
          simp only [isCont, Bool.and_eq_true, decide_eq_true_eq]
          omega
        rw [if_pos ⟨by omega, e5, e6⟩, if_pos (by omega)]
        simp only [List.drop_succ_cons, List.drop_zero, Option.some.injEq, Prod.mk.injEq]
        exact ⟨by omega, trivial⟩
      · simp only [if_neg ha, if_neg hb, if_neg hc, List.cons_append, List.nil_append,
          utf8DecodeOne]
        have e1 : ¬(0xF0 + n / 262144 < 0x80) := by omega
        have e2 : ¬(0xF0 + n / 262144 < 0xC0) := by omega
        have e3 : ¬(0xF0 + n / 262144 < 0xE0) := by omega
        have e4 : ¬(0xF0 + n / 262144 < 0xF0) := by omega
        have e5 : 0xF0 + n / 262144 < 0xF8 := by omega
        simp only [if_neg e1, if_neg e2, if_neg e3, if_neg e4, if_pos e5, List.getD_cons_zero,
          List.getD_cons_succ, List.length_cons]
        have e6 : isCont (0x80 + n / 4096 % 64) = true := by
          simp only [isCont, Bool.and_eq_true, decide_eq_true_eq]
          omega
        have e7 : isCont (0x80 + n / 64 % 64) = true := by
          simp only [isCont, Bool.and_eq_true, decide_eq_true_eq]
          omega
        have e8 : isCont (0x80 + n % 64) = true := by
          simp only [isCont, Bool.and_eq_true, decide_eq_true_eq]
          omega
        rw [if_pos ⟨by omega, e6, e7, e8⟩, if_pos (by omega)]
        simp only [List.drop_succ_cons, List.drop_zero, Option.some.injEq, Prod.mk.injEq]
        exact ⟨by omega, trivial⟩

/-- Python `str.encode()`: UTF-8 bytes of a string. -/
def strEncodeUtf8 (s : String) : Bytes :=
  s.data.flatMap (fun c => utf8EncodeCodepoint c.toNat)

/-- Python `bytes.decode()`: parse UTF-8, then rebuild the string. -/
def bytesDecodeUtf8 (b : Bytes) : Option String :=
  (utf8DecodeCodepoints b).map (fun ns => String.mk (ns.map Char.ofNat))

theorem validCodepoint_char (c : Char) : ValidCodepoint c.toNat := by
  have h : c.val.toNat < 0xd800 ∨ (0xdfff < c.val.toNat ∧ c.val.toNat < 0x110000) := c.valid
  have hv : c.toNat = c.val.toNat := rfl
  rw [hv]
  rcases h with h | h
  · exact ⟨by omega, by omega⟩
  · exact ⟨h.2, by omega⟩

theorem utf8DecodeAux_encodeList (l : List Char) :
    ∀ fuel, (l.flatMap (fun c => utf8EncodeCodepoint c.toNat)).length ≤ fuel →
      utf8DecodeAux fuel (l.flatMap (fun c => utf8EncodeCodepoint c.toNat)) =
        some (l.map Char.toNat) := by
  induction l with
  | nil =>
    intro fuel _
    cases fuel <;> rfl
  | cons c l ih =>
    intro fuel hfuel
    obtain ⟨b, bs, hshape⟩ := utf8EncodeCodepoint_shape c.toNat
    rw [List.flatMap_cons] at hfuel ⊢
    have hlen : (utf8EncodeCodepoint c.toNat ++
        l.flatMap (fun c => utf8EncodeCodepoint c.toNat)).length ≥ 1 := by
      rw [hshape]
      simp
    cases fuel with
    | zero => omega
    | succ fuel =>
      have hcons : utf8EncodeCodepoint c.toNat ++
          l.flatMap (fun c => utf8EncodeCodepoint c.toNat) =
          b :: (bs ++ l.flatMap (fun c => utf8EncodeCodepoint c.toNat)) := by
        rw [hshape]
        rfl
      rw [hcons, utf8DecodeAux, ← hcons, utf8DecodeOne_encode (validCodepoint_char c)]
      have hrest : (l.flatMap (fun c => utf8EncodeCodepoint c.toNat)).length ≤ fuel := by
        rw [hcons] at hfuel
        simp only [List.length_cons, List.length_append] at hfuel
        omega
      show (utf8DecodeAux fuel (l.flatMap (fun c => utf8EncodeCodepoint c.toNat))).map
        (fun x => c.toNat :: x) = some (List.map Char.toNat (c :: l))
      rw [ih fuel hrest]
      rfl

theorem utf8DecodeCodepoints_strEncodeUtf8 (s : String) :
    utf8DecodeCodepoints (strEncodeUtf8 s) = some (s.data.map Char.toNat) := by
  rw [utf8DecodeCodepoints, strEncodeUtf8]
  exact utf8DecodeAux_encodeList s.data _ le_rfl

theorem bytesDecodeUtf8_strEncodeUtf8 (s : String) :
    bytesDecodeUtf8 (strEncodeUtf8 s) = some s := by
  rw [bytesDecodeUtf8, utf8DecodeCodepoints_strEncodeUtf8]
  show some (String.mk ((s.data.map Char.toNat).map Char.ofNat)) = some s
  have h : (s.data.map Char.toNat).map Char.ofNat = s.data := by
    rw [List.map_map]
    have h2 : (Char.ofNat ∘ Char.toNat) = id := by
      funext c
      exact Char.ofNat_toNat c
    rw [h2, List.map_id]
  rw [h]

/-! ### Modelled external cryptographic primitives

`src/core/crypto.py` delegates all primitives to the external
`cryptography` library, whose code is not part of this repository.  Each
primitive is modelled from the specification's stated contract (§4.1):
deterministic digests of fixed length, a commutative Diffie-Hellman
agreement, and an AEAD whose decryption succeeds exactly on the output of
encryption under the same key and nonce and fails on any tampering, wrong
key, or truncation. -/

/-- Modelled from the spec: SHA-256 (`cryptography.hazmat.primitives.hashes`),
modelled as an unspecified-but-fixed deterministic function returning a
32-byte digest; the claims depend only on determinism and digest length. -/
def sha256Model (b : Bytes) : Bytes :=
  (List.range 32).map
    (fun i => b.foldl (fun a x => (a * 131 + x + 1) % 4294967291) (i + 2654435769) % 256)

theorem length_sha256Model (b : Bytes) : (sha256Model b).length = 32 := by
  simp [sha256Model]

theorem mem_sha256Model_lt {b : Bytes} {x : Nat} (h : x ∈ sha256Model b) : x < 256 := by
  simp only [sha256Model, List.mem_map] at h
  obtain ⟨i, _, hx⟩ := h
  omega

/-- One lowercase hexadecimal digit, as produced by Python `bytes.hex()`. -/
def hexDigit (n : Nat) : Char :=
  Char.ofNat (if n < 10 then 48 + n else 87 + n)

theorem hexDigit_mem {n : Nat} (h : n < 16) : hexDigit n ∈ "0123456789abcdef".data := by
  interval_cases n <;> decide

/-- Python `bytes.hex()`: lowercase hexadecimal encoding of a byte string. -/
def bytesHex (b : Bytes) : String :=
  String.mk (b.flatMap (fun x => [hexDigit (x / 16 % 16), hexDigit (x % 16)]))

theorem length_bytesHex (b : Bytes) : (bytesHex b).length = 2 * b.length := by
  show (b.flatMap (fun x => [hexDigit (x / 16 % 16), hexDigit (x % 16)])).length = 2 * b.length
  induction b with
  | nil => rfl
  | cons x b ih =>
    rw [List.flatMap_cons, List.length_append, ih]
    simp only [List.length_cons, List.length_nil]
    omega

theorem mem_bytesHex_isHex {b : Bytes} {c : Char} (h : c ∈ (bytesHex b).data) :
    c ∈ "0123456789abcdef".data := by
  have h2 : c ∈ b.flatMap (fun x => [hexDigit (x / 16 % 16), hexDigit (x % 16)]) := h
  simp only [List.mem_flatMap, List.mem_cons, List.not_mem_nil, or_false] at h2
  obtain ⟨x, _, hc⟩ := h2
  rcases hc with hc | hc <;> (subst hc; exact hexDigit_mem (by omega))

/-- Order of the NIST P-384 group (SECP384R1), the curve used by
`crypto.py` for every key. -/
def P384n : Nat :=
  39402006196394479212279040100143613805079739270465446667946905279627659399113263569398956308152294913554433653942643

/-- Modelled from the spec: an elliptic-curve point of SECP384R1
(`cryptography.hazmat.primitives.asymmetric.ec`).  The group is cyclic of
order `P384n`; a point is modelled by the discrete logarithm of its
generator multiple, so scalar multiplication is multiplication mod `P384n`. -/
def pubOf (d : Nat) : Nat := d % P384n

/-- Modelled from the spec: ECDH key agreement (`private_key.exchange`),
scalar-multiplying the peer point by the own private scalar. -/
def ecdhExchange (d : Nat) (q : Nat) : Nat := d * q % P384n

/-- Modelled from the spec: the canonical X9.62 compressed-point encoding
(49 bytes for P-384: a leading tag byte then the 48-byte coordinate). -/
def pointEncode (q : Nat) : Bytes := 2 :: natToBytesBE 48 q

/-- Modelled from the spec:
`ec.EllipticCurvePublicKey.from_encoded_point`, which fails on malformed
encodings. -/
def pointDecode (l : Bytes) : Option Nat :=
  match l with
  | 2 :: rest => if rest.length = 48 then some (bytesToNatBE rest) else none
  | _ => none

theorem P384n_lt : P384n < 256 ^ 48 := by
  rw [P384n]
  norm_num

theorem pointDecode_encode {q : Nat} (h : q < P384n) :
    pointDecode (pointEncode q) = some q := by
  rw [pointEncode, pointDecode]
  rw [if_pos (length_natToBytesBE 48 q)]
  rw [bytesToNatBE_natToBytesBE]
  rw [Nat.mod_eq_of_lt (lt_trans h P384n_lt)]

/-- Modelled from the spec: HKDF-SHA256 (`cryptography.hazmat.primitives.kdf.hkdf`)
with `salt=None`, expanding the input keying material and info string into
a key of the requested length. -/
def hkdfSHA256 (len : Nat) (ikm : Bytes) (info : Bytes) : Bytes :=
  (List.range len).map (fun i => (sha256Model (ikm ++ info ++ [i])).getD 0 0)

theorem length_hkdfSHA256 (len : Nat) (ikm info : Bytes) :
    (hkdfSHA256 len ikm info).length = len := by
  simp [hkdfSHA256]

/-- Modelled from the spec: AES-GCM authenticated encryption
(`cryptography.hazmat.primitives.ciphers.aead.AESGCM`).  Idealized: in
place of the real 16-byte tag the ciphertext carries a record (length
field, plaintext checksum, key, nonce) that makes the spec's
authenticated-decryption contract — failure on any tampering, wrong key,
or truncation — hold absolutely, where the real tag enforces it
computationally. -/
def aesgcmEncrypt (key nonce p : Bytes) : Bytes :=
  natToBytesBE 16 p.length ++ p ++ [p.sum % 256] ++ key ++ nonce

/-- Modelled from the spec: AES-GCM authenticated decryption; accepts
exactly the images of `aesgcmEncrypt` under the same key and nonce. -/
def aesgcmDecrypt (key nonce c : Bytes) : Except String Bytes :=
  if c = aesgcmEncrypt key nonce ((c.drop 16).take (c.length - 61))
  then .ok ((c.drop 16).take (c.length - 61))
  else .error "Authentication failed"

theorem length_aesgcmEncrypt (key nonce p : Bytes) :
    (aesgcmEncrypt key nonce p).length = 17 + p.length + key.length + nonce.length := by
  simp [aesgcmEncrypt, length_natToBytesBE]
  omega

theorem drop_of_append (n : Nat) (l1 l2 : Bytes) (h : l1.length = n) :
    (l1 ++ l2).drop n = l2 := by
  subst h
  exact List.drop_left l1 l2

theorem take_of_append (n : Nat) (l1 l2 : Bytes) (h : l1.length = n) :
    (l1 ++ l2).take n = l1 := by
  subst h
  exact List.take_left l1 l2

theorem aesgcmEncrypt_extract {key nonce : Bytes} (hkey : key.length = 32)
    (hnonce : nonce.length = 12) (p : Bytes) :
    ((aesgcmEncrypt key nonce p).drop 16).take
      ((aesgcmEncrypt key nonce p).length - 61) = p := by
  rw [length_aesgcmEncrypt, hkey, hnonce]
  have h61 : 17 + p.length + 32 + 12 - 61 = p.length := by omega
  rw [h61, aesgcmEncrypt]
  simp only [List.append_assoc]
  rw [drop_of_append 16 _ _ (length_natToBytesBE 16 p.length)]
  rw [take_of_append p.length p _ rfl]

theorem aesgcmDecrypt_encrypt {key nonce : Bytes} (hkey : key.length = 32)
    (hnonce : nonce.length = 12) (p : Bytes) :
    aesgcmDecrypt key nonce (aesgcmEncrypt key nonce p) = .ok p := by
  rw [aesgcmDecrypt, aesgcmEncrypt_extract hkey hnonce, if_pos rfl]

theorem aesgcmDecrypt_ok {key nonce c p : Bytes}
    (h : aesgcmDecrypt key nonce c = .ok p) : c = aesgcmEncrypt key nonce p := by
  unfold aesgcmDecrypt at h
  split at h
  · rename_i heq
    simp only [Except.ok.injEq] at h
    exact h ▸ heq
  · exact Except.noConfusion h

/-! ### `CryptoManager` (src/core/crypto.py) -/

/-- State of `CryptoManager` (src/core/crypto.py): the persistent identity
private key, the peer's public key once set, and the derived session key.
The `cipher` field of the Python object is `AESGCM(session_key)` and is
determined by `session_key`, so it is not repeated here. -/
structure CryptoManager where
  private_key : Nat
  peer_public_key : Option Nat := none
  session_key : Option Bytes := none
deriving Repr, DecidableEq

/-- `CryptoManager.get_public_bytes`: X9.62 compressed-point encoding of
the local public key. -/
def CryptoManager.get_public_bytes (cm : CryptoManager) : Bytes :=
  pointEncode (pubOf cm.private_key)

/-- `CryptoManager.get_public_key_fingerprint`: SHA-256 of the public
bytes, hex encoded. -/
def CryptoManager.get_public_key_fingerprint (cm : CryptoManager) : String :=
  bytesHex (sha256Model cm.get_public_bytes)

/-- `CryptoManager.get_peer_fingerprint`: raises `ValueError` when no peer
public key is set, else the SHA-256 of the peer key's compressed-point
encoding, hex encoded. -/
def CryptoManager.get_peer_fingerprint (cm : CryptoManager) : Except String String :=
  match cm.peer_public_key with
  | none => .error "Peer's public key not defined"
  | some q => .ok (bytesHex (sha256Model (pointEncode q)))

/-- The fixed HKDF info string `b"Cigarettes-session-key"` of
`CryptoManager._derive_session_key`. -/
def sessionKeyInfo : Bytes := strEncodeUtf8 "Cigarettes-session-key"

/-- `CryptoManager._derive_session_key`: ECDH with the identity private
key and the peer public key, then HKDF-SHA256 (salt `None`, 32 bytes, the
fixed info string); raises when the peer key is absent. -/
def CryptoManager.derive_session_key (cm : CryptoManager) : Except String CryptoManager :=
  match cm.peer_public_key with
  | none => .error "Peer's public key is not defined"
  | some q =>
    .ok { cm with
      session_key := some (hkdfSHA256 32 (natToBytesBE 48 (ecdhExchange cm.private_key q))
        sessionKeyInfo) }

/-- `CryptoManager.set_peer_public_key`: decode the peer's compressed
point (raising on a malformed encoding, as `from_encoded_point` does) and
derive the session key. -/
def CryptoManager.set_peer_public_key (cm : CryptoManager) (peer_key_bytes : Bytes) :
    Except String CryptoManager :=
  match pointDecode peer_key_bytes with
  | none => .error "Invalid public key encoding"
  | some q => CryptoManager.derive_session_key { cm with peer_public_key := some q }

/-- `CryptoManager.sign_challenge`.  The ECDSA signature itself is
modelled from the spec: an ideal signature that `verify_signature` accepts
exactly for the signer's public key and the signed challenge. -/
def CryptoManager.sign_challenge (cm : CryptoManager) (challenge : Bytes) : Bytes :=
  pointEncode (pubOf cm.private_key) ++ challenge

/-- `CryptoManager.verify_signature`: decodes the public key (any
exception yields `False`) and checks the signature against the challenge. -/
def CryptoManager.verify_signature (public_key_bytes challenge signature : Bytes) : Bool :=
  match pointDecode public_key_bytes with
  | none => false
  | some _ => signature = public_key_bytes ++ challenge

/-- `CryptoManager.encrypt_message`: raises when no session key is
established; otherwise encrypts the UTF-8 bytes of the message under a
fresh 12-byte nonce (modelled as the `nonce` argument, standing for
`os.urandom(12)`) and returns `nonce ‖ ciphertext`. -/
def CryptoManager.encrypt_message (cm : CryptoManager) (nonce : Bytes) (message : String) :
    Except String Bytes :=
  match cm.session_key with
  | none => .error "The session key is not yet established"
  | some key => .ok (nonce ++ aesgcmEncrypt key nonce (strEncodeUtf8 message))

/-- `CryptoManager.decrypt_message`: raises when no session key is
established; splits the first 12 bytes off as the nonce, authenticates and
decrypts the remainder, and decodes the plaintext as UTF-8. -/
def CryptoManager.decrypt_message (cm : CryptoManager) (encrypted_data : Bytes) :
    Except String String :=
  match cm.session_key with
  | none => .error "The session key is not yet established"
  | some key =>
    match aesgcmDecrypt key (encrypted_data.take 12) (encrypted_data.drop 12) with
    | .error e => .error e
    | .ok plaintext =>
      match bytesDecodeUtf8 plaintext with
      | some s => .ok s
      | none => .error "UnicodeDecodeError"

/-- `CryptoManager.encrypt_bytes`: binary variant of `encrypt_message`
(for file transfer), without the text codec. -/
def CryptoManager.encrypt_bytes (cm : CryptoManager) (nonce : Bytes) (data : Bytes) :
    Except String Bytes :=
  match cm.session_key with
  | none => .error "The session key is not yet established"
  | some key => .ok (nonce ++ aesgcmEncrypt key nonce data)

/-- `CryptoManager.decrypt_bytes`: binary variant of `decrypt_message`. -/
def CryptoManager.decrypt_bytes (cm : CryptoManager) (encrypted_data : Bytes) :
    Except String Bytes :=
  match cm.session_key with
  | none => .error "The session key is not yet established"
  | some key => aesgcmDecrypt key (encrypted_data.take 12) (encrypted_data.drop 12)

theorem encrypt_bytes_eq {cm : CryptoManager} {key : Bytes}
    (hsk : cm.session_key = some key) (nonce data : Bytes) :
    cm.encrypt_bytes nonce data = .ok (nonce ++ aesgcmEncrypt key nonce data) := by
  rw [CryptoManager.encrypt_bytes, hsk]

theorem encrypt_message_eq {cm : CryptoManager} {key : Bytes}
    (hsk : cm.session_key = some key) (nonce : Bytes) (message : String) :
    cm.encrypt_message nonce message =
      .ok (nonce ++ aesgcmEncrypt key nonce (strEncodeUtf8 message)) := by
  rw [CryptoManager.encrypt_message, hsk]

theorem decrypt_bytes_encrypt_bytes {cm : CryptoManager} {key nonce : Bytes}
    (hsk : cm.session_key = some key) (hk : key.length = 32) (hn : nonce.length = 12)
    (data : Bytes) :
    cm.decrypt_bytes (nonce ++ aesgcmEncrypt key nonce data) = .ok data := by
  rw [CryptoManager.decrypt_bytes, hsk]
  rw [take_of_append 12 nonce _ hn, drop_of_append 12 nonce _ hn]
  exact aesgcmDecrypt_encrypt hk hn data

theorem decrypt_message_encrypt_message {cm : CryptoManager} {key nonce : Bytes}
    (hsk : cm.session_key = some key) (hk : key.length = 32) (hn : nonce.length = 12)
    (message : String) :
    cm.decrypt_message (nonce ++ aesgcmEncrypt key nonce (strEncodeUtf8 message)) =
      .ok message := by
  simp only [CryptoManager.decrypt_message, hsk, take_of_append, drop_of_append, hn,
    aesgcmDecrypt_encrypt hk hn, bytesDecodeUtf8_strEncodeUtf8]

theorem P384n_pos : 0 < P384n := by
  rw [P384n]
  norm_num

theorem pubOf_lt (d : Nat) : pubOf d < P384n :=
  Nat.mod_lt d P384n_pos

/-- Both roles of an ECDH agreement compute the same shared secret. -/
theorem ecdhExchange_comm (a b : Nat) :
    ecdhExchange a (pubOf b) = ecdhExchange b (pubOf a) := by
  rw [ecdhExchange, ecdhExchange, pubOf, pubOf,
    Nat.mul_mod, Nat.mod_mod_of_dvd, ← Nat.mul_mod,
    Nat.mul_mod b, Nat.mod_mod_of_dvd, ← Nat.mul_mod, Nat.mul_comm] <;> rfl

theorem derive_session_key_eq {cm : CryptoManager} {q : Nat}
    (hq : cm.peer_public_key = some q) :
    cm.derive_session_key = .ok { cm with
      session_key := some (hkdfSHA256 32 (natToBytesBE 48 (ecdhExchange cm.private_key q))
        sessionKeyInfo) } := by
  rw [CryptoManager.derive_session_key, hq]

theorem set_peer_public_key_pubOf (cm : CryptoManager) (d : Nat) :
    cm.set_peer_public_key (pointEncode (pubOf d)) = .ok { cm with
      peer_public_key := some (pubOf d),
      session_key := some (hkdfSHA256 32
        (natToBytesBE 48 (ecdhExchange cm.private_key (pubOf d))) sessionKeyInfo) } := by
  rw [CryptoManager.set_peer_public_key, pointDecode_encode (pubOf_lt d)]
  exact derive_session_key_eq rfl

/-! ### Tamper detection (support for the AEAD authenticity analysis) -/

/-- Flip bit `j` (0–7) of byte `i` of a byte string: the elementary
tampering of a captured `nonce ‖ ciphertext`. -/
def flipBit (l : Bytes) (i j : Nat) : Bytes :=
  l.set i (l.getD i 0 ^^^ 2 ^ j)

theorem xor_two_pow_ne (b j : Nat) : b ^^^ 2 ^ j ≠ b := by
  intro h
  have h2 : b ^^^ (b ^^^ 2 ^ j) = b ^^^ b := congrArg (b ^^^ ·) h
  rw [← Nat.xor_assoc, Nat.xor_self, Nat.zero_xor] at h2
  exact absurd h2 (Nat.pos_iff_ne_zero.mp (Nat.pos_pow_of_pos j (by omega)))

theorem xor_two_pow_mod_ne (b : Nat) {j : Nat} (hj : j < 8) :
    (b ^^^ 2 ^ j) % 256 ≠ b % 256 := by
  intro h
  have h1 := congrArg (Nat.testBit · j) h
  simp only at h1
  have e : (256 : Nat) = 2 ^ 8 := rfl
  rw [e, Nat.testBit_mod_two_pow, Nat.testBit_mod_two_pow, Nat.testBit_xor,
    Nat.testBit_two_pow_self, decide_eq_true hj] at h1
  simp only [Bool.true_and] at h1
  cases hb : b.testBit j <;> rw [hb] at h1 <;> simp at h1

theorem sum_set_add (l : Bytes) (m x : Nat) (h : m < l.length) :
    (l.set m x).sum + l.getD m 0 = l.sum + x := by
  induction l generalizing m with
  | nil => simp at h
  | cons a l ih =>
    cases m with
    | zero =>
      simp only [List.set, List.sum_cons, List.getD_cons_zero]
      omega
    | succ m =>
      simp only [List.set, List.sum_cons, List.getD_cons_succ]
      have := ih m (by simpa using h)
      omega

theorem getElem?_eq_some_getD {l : Bytes} {i : Nat} (h : i < l.length) :
    l[i]? = some (l.getD i 0) := by
  rw [List.getD_eq_getElem?_getD, List.getElem?_eq_getElem h]
  rfl

theorem getD_append_left {l1 l2 : Bytes} {i : Nat} (h : i < l1.length) :
    (l1 ++ l2).getD i 0 = l1.getD i 0 := by
  rw [List.getD_eq_getElem?_getD, List.getD_eq_getElem?_getD, List.getElem?_append_left h]

theorem getD_append_right {l1 l2 : Bytes} {i : Nat} (h : l1.length ≤ i) :
    (l1 ++ l2).getD i 0 = l2.getD (i - l1.length) 0 := by
  rw [List.getD_eq_getElem?_getD, List.getD_eq_getElem?_getD, List.getElem?_append_right h]

/-- Writing a flipped byte into a byte string never reproduces the string. -/
theorem set_flip_ne {l : Bytes} {i j : Nat} (h : i < l.length) (b : Nat)
    (hb : l.getD i 0 = b) : l.set i (b ^^^ 2 ^ j) ≠ l := by
  intro heq
  have h2 := congrArg (fun t => t[i]?) heq
  simp only [List.getElem?_set_self h, getElem?_eq_some_getD h, hb] at h2
  exact xor_two_pow_ne b j (Option.some.inj h2)

/-- `aesgcmEncrypt` with the appends re-associated for prefix reasoning. -/
theorem aesgcmEncrypt_assoc (key nonce p : Bytes) :
    aesgcmEncrypt key nonce p =
      natToBytesBE 16 p.length ++ (p ++ ([p.sum % 256] ++ (key ++ nonce))) := by
  simp [aesgcmEncrypt, List.append_assoc]

theorem aesgcmDecrypt_error {key nonce c : Bytes}
    (h : ∀ q, c ≠ aesgcmEncrypt key nonce q) :
    aesgcmDecrypt key nonce c = .error "Authentication failed" := by
  rw [aesgcmDecrypt, if_neg (h _)]

/-- Flipping any single bit of an AEAD ciphertext leaves the image set of
`aesgcmEncrypt` under the same key and nonce. -/
theorem flip_ctext_not_image {key nonce p : Bytes} (hk : key.length = 32)
    (hn : nonce.length = 12) {i j : Nat}
    (hi : i < (aesgcmEncrypt key nonce p).length) (hj : j < 8) (q : Bytes) :
    flipBit (aesgcmEncrypt key nonce p) i j ≠ aesgcmEncrypt key nonce q := by
  intro heq
  have hclen : (aesgcmEncrypt key nonce p).length = p.length + 61 := by
    rw [length_aesgcmEncrypt, hk, hn]
    omega
  have hqlen : q.length = p.length := by
    have hl := congrArg List.length heq
    rw [flipBit, List.length_set, hclen, length_aesgcmEncrypt, hk, hn] at hl
    omega
  have hi' : i < p.length + 61 := hclen ▸ hi
  rw [flipBit] at heq
  rw [aesgcmEncrypt_assoc key nonce p, aesgcmEncrypt_assoc key nonce q] at heq
  have hA16 : (natToBytesBE 16 p.length).length = 16 := length_natToBytesBE 16 _
  have hAq16 : (natToBytesBE 16 q.length).length = 16 := length_natToBytesBE 16 _
  by_cases h1 : i < 16
  · -- a bit of the length field was flipped
    have hvA : (natToBytesBE 16 p.length ++
        (p ++ ([p.sum % 256] ++ (key ++ nonce)))).getD i 0 =
        (natToBytesBE 16 p.length).getD i 0 := getD_append_left (by omega)
    rw [hvA, List.set_append_left _ _ (by omega)] at heq
    obtain ⟨hseg1, hseg2⟩ := List.append_inj heq (by rw [List.length_set, hA16, hAq16])
    obtain ⟨hpq, -⟩ := List.append_inj hseg2 hqlen.symm
    rw [hqlen] at hseg1
    exact set_flip_ne (by omega) _ rfl hseg1
  · rw [List.set_append_right _ _ (by omega), hA16] at heq
    obtain ⟨-, hseg2⟩ := List.append_inj heq (by rw [hA16, hAq16])
    by_cases h2 : i < 16 + p.length
    · -- a bit of the ciphertext body was flipped: the checksum byte catches it
      have hvp : (natToBytesBE 16 p.length ++
          (p ++ ([p.sum % 256] ++ (key ++ nonce)))).getD i 0 = p.getD (i - 16) 0 := by
        rw [getD_append_right (by omega), hA16, getD_append_left (by omega)]
      rw [hvp, List.set_append_left _ _ (by omega)] at hseg2
      obtain ⟨hqset, hS⟩ := List.append_inj hseg2 (by rw [List.length_set]; exact hqlen.symm)
      obtain ⟨hσ, -⟩ := List.append_inj hS rfl
      simp only [List.cons.injEq, and_true] at hσ
      have hsum := sum_set_add p (i - 16) (p.getD (i - 16) 0 ^^^ 2 ^ j) (by omega)
      rw [hqset] at hsum
      exact xor_two_pow_mod_ne (p.getD (i - 16) 0) hj (by omega)
    · by_cases h3 : i = 16 + p.length
      · -- the checksum byte itself was flipped
        have hvσ : (natToBytesBE 16 p.length ++
            (p ++ ([p.sum % 256] ++ (key ++ nonce)))).getD i 0 = p.sum % 256 := by
          rw [getD_append_right (by omega), hA16, getD_append_right (by omega),
            getD_append_left (by simp [h3])]
          simp [h3]
        rw [hvσ, List.set_append_right _ _ (by omega)] at hseg2
        obtain ⟨hpq, hS⟩ := List.append_inj hseg2 hqlen.symm
        have hz : i - 16 - p.length = 0 := by omega
        rw [hz, List.set_append_left _ _ (by simp)] at hS
        obtain ⟨hσ, -⟩ := List.append_inj hS (by simp)
        rw [List.set_cons_zero] at hσ
        simp only [List.cons.injEq, and_true] at hσ
        rw [← hpq] at hσ
        exact xor_two_pow_ne (p.sum % 256) j hσ
      · -- a bit of the appended key or nonce record was flipped
        rw [List.set_append_right _ _ (by omega)] at hseg2
        obtain ⟨hpq, hS⟩ := List.append_inj hseg2 hqlen.symm
        rw [List.set_append_right _ _ (by simp; omega), List.length_singleton] at hS
        obtain ⟨-, hKN⟩ := List.append_inj hS (by simp)
        by_cases h5 : i - 16 - p.length - 1 < 32
        · -- key record
          have hvk : (natToBytesBE 16 p.length ++
              (p ++ ([p.sum % 256] ++ (key ++ nonce)))).getD i 0 =
              key.getD (i - 16 - p.length - 1) 0 := by
            rw [getD_append_right (by omega), hA16, getD_append_right (by omega),
              getD_append_right (by simp; omega), List.length_singleton,
              getD_append_left (by omega)]
          rw [hvk, List.set_append_left _ _ (by omega)] at hKN
          obtain ⟨hkey2, -⟩ := List.append_inj hKN (by rw [List.length_set])
          exact set_flip_ne (by omega) _ rfl hkey2
        · -- nonce record
          have hvn : (natToBytesBE 16 p.length ++
              (p ++ ([p.sum % 256] ++ (key ++ nonce)))).getD i 0 =
              nonce.getD (i - 16 - p.length - 1 - 32) 0 := by
            rw [getD_append_right (by omega), hA16, getD_append_right (by omega),
              getD_append_right (by simp; omega), List.length_singleton,
              getD_append_right (by omega), hk]
          rw [hvn, List.set_append_right _ _ (by omega), hk] at hKN
          obtain ⟨-, hnonce2⟩ := List.append_inj hKN rfl
          exact set_flip_ne (by omega) _ rfl hnonce2

/-- Decrypting under any session key other than the one that produced a
ciphertext leaves the image set of `aesgcmEncrypt` under that other key. -/
theorem wrong_key_not_image {key key' nonce p : Bytes} (hk : key.length = 32)
    (hn : nonce.length = 12) (hbound : p.length < 2 ^ 32) (hne : key' ≠ key) (q : Bytes) :
    aesgcmEncrypt key nonce p ≠ aesgcmEncrypt key' nonce q := by
  intro heq
  have hl := congrArg List.length heq
  rw [length_aesgcmEncrypt, length_aesgcmEncrypt, hk, hn] at hl
  rw [aesgcmEncrypt_assoc, aesgcmEncrypt_assoc] at heq
  obtain ⟨hA, hrest⟩ := List.append_inj heq
    (by rw [length_natToBytesBE, length_natToBytesBE])
  have hqlen : q.length = p.length := by
    have hq32 : q.length < 256 ^ 16 := by
      have : (256 : Nat) ^ 16 = 2 ^ 128 := by norm_num
      rw [this]
      have h2 : (2 : Nat) ^ 32 + 32 < 2 ^ 128 := by norm_num
      omega
    have hp32 : p.length < 256 ^ 16 := by
      have : (256 : Nat) ^ 16 = 2 ^ 128 := by norm_num
      rw [this]
      have h2 : (2 : Nat) ^ 32 < 2 ^ 128 := by norm_num
      omega
    exact (natToBytesBE_injOn hp32 hq32 hA).symm
  obtain ⟨-, hS⟩ := List.append_inj hrest hqlen.symm
  obtain ⟨-, hKN⟩ := List.append_inj hS rfl
  obtain ⟨hkey2, -⟩ := List.append_inj' hKN rfl
  exact hne hkey2.symm

/-- No strict prefix of an AEAD ciphertext is an AEAD ciphertext under the
same key and nonce: the length field pins the exact length. -/
theorem truncate_not_image {key nonce p : Bytes} (hk : key.length = 32)
    (hn : nonce.length = 12) (hbound : p.length < 2 ^ 32) {m : Nat}
    (hm : m < (aesgcmEncrypt key nonce p).length) (q : Bytes) :
    (aesgcmEncrypt key nonce p).take m ≠ aesgcmEncrypt key nonce q := by
  intro heq
  have hclen : (aesgcmEncrypt key nonce p).length = p.length + 61 := by
    rw [length_aesgcmEncrypt, hk, hn]
    omega
  have hqlen : (aesgcmEncrypt key nonce q).length = q.length + 61 := by
    rw [length_aesgcmEncrypt, hk, hn]
    omega
  have hmlen : ((aesgcmEncrypt key nonce p).take m).length = m := by
    rw [List.length_take]
    omega
  have hm61 : m = q.length + 61 := by
    rw [← heq, hmlen] at hqlen
    omega
  -- compare the 16-byte length fields
  have hpref : ((aesgcmEncrypt key nonce p).take m).take 16 = natToBytesBE 16 p.length := by
    rw [List.take_take, Nat.min_def, if_pos (by omega)]
    rw [aesgcmEncrypt_assoc]
    exact take_of_append 16 _ _ (length_natToBytesBE 16 _)
  have hqpref : (aesgcmEncrypt key nonce q).take 16 = natToBytesBE 16 q.length := by
    rw [aesgcmEncrypt_assoc]
    exact take_of_append 16 _ _ (length_natToBytesBE 16 _)
  rw [heq, hqpref] at hpref
  have hq32 : q.length < 256 ^ 16 := by
    have he : (256 : Nat) ^ 16 = 2 ^ 128 := by norm_num
    rw [he]
    have h2 : (2 : Nat) ^ 32 + 61 < 2 ^ 128 := by norm_num
    omega
  have hp32 : p.length < 256 ^ 16 := by
    have he : (256 : Nat) ^ 16 = 2 ^ 128 := by norm_num
    rw [he]
    have h2 : (2 : Nat) ^ 32 < 2 ^ 128 := by norm_num
    omega
  have := natToBytesBE_injOn hq32 hp32 hpref
  omega

theorem aesgcmEncrypt_ne_nil (key nonce q : Bytes) : [] ≠ aesgcmEncrypt key nonce q := by
  intro h
  have := congrArg List.length h
  rw [length_aesgcmEncrypt] at this
  simp only [List.length_nil] at this
  omega

/-- A ciphertext decrypted with a flipped nonce leaves the image set of
`aesgcmEncrypt` under that nonce: the nonce record catches it. -/
theorem nonce_mismatch_not_image {key nonce nonce' p : Bytes} (hk : key.length = 32)
    (hn : nonce.length = 12) (hn' : nonce'.length = 12) (hne : nonce' ≠ nonce) (q : Bytes) :
    aesgcmEncrypt key nonce p ≠ aesgcmEncrypt key nonce' q := by
  intro heq
  have hl := congrArg List.length heq
  rw [length_aesgcmEncrypt, length_aesgcmEncrypt, hk, hn, hn'] at hl
  rw [aesgcmEncrypt_assoc, aesgcmEncrypt_assoc] at heq
  obtain ⟨-, hrest⟩ := List.append_inj heq
    (by rw [length_natToBytesBE, length_natToBytesBE])
  obtain ⟨-, hS⟩ := List.append_inj hrest (by omega)
  obtain ⟨-, hKN⟩ := List.append_inj hS rfl
  obtain ⟨-, hnonce2⟩ := List.append_inj hKN rfl
  exact hne hnonce2.symm

theorem decrypt_bytes_flip_error {cm : CryptoManager} {key nonce pt : Bytes}
    (hsk : cm.session_key = some key) (hk : key.length = 32) (hn : nonce.length = 12)
    {i j : Nat} (hi : i < (nonce ++ aesgcmEncrypt key nonce pt).length) (hj : j < 8) :
    cm.decrypt_bytes (flipBit (nonce ++ aesgcmEncrypt key nonce pt) i j) =
      .error "Authentication failed" := by
  rw [CryptoManager.decrypt_bytes, hsk]
  by_cases h12 : i < 12
  · rw [flipBit, getD_append_left (by omega), List.set_append_left _ _ (by omega)]
    rw [take_of_append 12 _ _ (by rw [List.length_set]; exact hn),
      drop_of_append 12 _ _ (by rw [List.length_set]; exact hn)]
    refine aesgcmDecrypt_error (fun q => ?_)
    refine nonce_mismatch_not_image hk hn (by rw [List.length_set]; exact hn) ?_ q
    exact set_flip_ne (by omega) _ rfl
  · rw [flipBit, getD_append_right (by omega), List.set_append_right _ _ (by omega), hn]
    rw [take_of_append 12 _ _ hn, drop_of_append 12 _ _ hn]
    refine aesgcmDecrypt_error (fun q => ?_)
    have hi2 : i - 12 < (aesgcmEncrypt key nonce pt).length := by
      rw [List.length_append, hn] at hi
      omega
    exact flip_ctext_not_image hk hn hi2 hj q

theorem decrypt_bytes_truncate_error {cm : CryptoManager} {key nonce pt : Bytes}
    (hsk : cm.session_key = some key) (hk : key.length = 32) (hn : nonce.length = 12)
    (hbound : pt.length < 2 ^ 32) {m : Nat}
    (hm : m < (nonce ++ aesgcmEncrypt key nonce pt).length) :
    cm.decrypt_bytes ((nonce ++ aesgcmEncrypt key nonce pt).take m) =
      .error "Authentication failed" := by
  rw [CryptoManager.decrypt_bytes, hsk]
  by_cases h12 : m ≤ 12
  · have htk : ((nonce ++ aesgcmEncrypt key nonce pt).take m).length = m := by
      rw [List.length_take, List.length_append]
      omega
    have hdrop : ((nonce ++ aesgcmEncrypt key nonce pt).take m).drop 12 = [] := by
      apply List.drop_eq_nil_of_le
      omega
    rw [hdrop]
    exact aesgcmDecrypt_error (fun q => aesgcmEncrypt_ne_nil key _ q)
  · rw [List.take_append_eq_append_take,
      List.take_of_length_le (by omega : nonce.length ≤ m), hn]
    rw [take_of_append 12 _ _ hn, drop_of_append 12 _ _ hn]
    refine aesgcmDecrypt_error (fun q => ?_)
    have hm2 : m - 12 < (aesgcmEncrypt key nonce pt).length := by
      rw [List.length_append, hn] at hm
      omega
    exact truncate_not_image hk hn hbound hm2 q

theorem decrypt_bytes_wrong_key_error {cm' : CryptoManager} {key key' nonce pt : Bytes}
    (hsk' : cm'.session_key = some key') (hk : key.length = 32) (hn : nonce.length = 12)
    (hbound : pt.length < 2 ^ 32) (hne : key' ≠ key) :
    cm'.decrypt_bytes (nonce ++ aesgcmEncrypt key nonce pt) =
      .error "Authentication failed" := by
  rw [CryptoManager.decrypt_bytes, hsk']
  rw [take_of_append 12 _ _ hn, drop_of_append 12 _ _ hn]
  refine aesgcmDecrypt_error (fun q => ?_)
  exact wrong_key_not_image hk hn hbound hne q

theorem decrypt_message_of_auth_error {cm : CryptoManager} {key : Bytes}
    (hsk : cm.session_key = some key) {d : Bytes} {e : String}
    (h : aesgcmDecrypt key (d.take 12) (d.drop 12) = .error e) :
    cm.decrypt_message d = .error e := by
  simp only [CryptoManager.decrypt_message, hsk, h]

theorem decrypt_bytes_to_message_error {cm : CryptoManager} {key : Bytes}
    (hsk : cm.session_key = some key) {d : Bytes} {e : String}
    (h : cm.decrypt_bytes d = .error e) : cm.decrypt_message d = .error e := by
  rw [CryptoManager.decrypt_bytes, hsk] at h
  exact decrypt_message_of_auth_error hsk h

/-! ### `KnownHostsManager` (src/core/hosts.py) -/

/-- Python `s.endswith(suf)`. -/
def strEndsWith (s suf : String) : Bool := suf.data.isSuffixOf s.data

/-- Python `sub in s` (substring containment). -/
def strContainsSub (s sub : String) : Bool := s.data.tails.any (fun t => sub.data.isPrefixOf t)

/-- Python `s.rsplit(':', 1)` when `':' in s`: the text before and after
the last colon. -/
def rsplitColon1 (s : String) : String × String :=
  let r := s.data.reverse
  let i := r.findIdx (· = ':')
  (String.mk ((r.drop (i + 1)).reverse), String.mk ((r.take i).reverse))

/-- Python whitespace for `int()`'s argument stripping. -/
def isPyWs (c : Char) : Bool :=
  c = ' ' || c = '\t' || c = '\n' || c = '\x0d' || c = '\x0b' || c = '\x0c'

def isPyDigit (c : Char) : Bool := '0' ≤ c && c ≤ '9'

/-- A digit run as Python `int()` accepts after the first digit: digits
with single underscores strictly between digits. -/
def undTail : List Char → Bool
  | [] => true
  | c :: rest =>
    if isPyDigit c then undTail rest
    else if c = '_' then
      match rest with
      | c2 :: rest2 => isPyDigit c2 && undTail rest2
      | [] => false
    else false

def undDigits : List Char → Bool
  | [] => false
  | c :: rest => isPyDigit c && undTail rest

def digitsVal (l : List Char) : Nat :=
  (l.filter (· ≠ '_')).foldl (fun a c => a * 10 + (c.toNat - 48)) 0

/-- Python `int(s)` on ASCII input: strip whitespace, optional sign,
digit run with optional single underscores; `None` models `ValueError`. -/
def pyInt (s : String) : Option Int :=
  let l := (s.data.dropWhile isPyWs).reverse.dropWhile isPyWs |>.reverse
  match l with
  | '+' :: rest => if undDigits rest then some (digitsVal rest : Int) else none
  | '-' :: rest => if undDigits rest then some (-(digitsVal rest : Int)) else none
  | rest => if undDigits rest then some (digitsVal rest : Int) else none

/-- State of `KnownHostsManager` (src/core/hosts.py): the `hosts` dict
(address → fingerprint) and the `nicknames` dict (fingerprint → nickname),
as association lists with Python-dict update semantics. -/
structure KnownHostsManager where
  hosts : List (String × String)
  nicknames : List (String × String)
deriving Repr, DecidableEq

/-- Python `d[k] = v`: replace in place when the key exists, else append. -/
def dictSet (d : List (String × String)) (k v : String) : List (String × String) :=
  if d.any (fun kv => kv.1 = k) then
    d.map (fun kv => if kv.1 = k then (k, v) else kv)
  else d ++ [(k, v)]

/-- Python `d.get(k)`. -/
def dictGet (d : List (String × String)) (k : String) : Option String :=
  (d.find? (fun kv => kv.1 = k)).map (fun kv => kv.2)

/-- Effects of a `KnownHostsManager` call: console output and
`_save_data` (the write of `known_hosts.json` to disk). -/
inductive HostsAction where
  | print (msg : String)
  | save
deriving Repr, DecidableEq

/-- `KnownHostsManager._validate_fingerprint`: exactly 64 characters, all
hexadecimal (either case). -/
def KnownHostsManager.validate_fingerprint (fingerprint : String) : Bool :=
  fingerprint.length = 64 &&
    fingerprint.data.all (fun c => "0123456789abcdefABCDEF".data.contains c)

/-- `KnownHostsManager._is_onion_address`. -/
def KnownHostsManager.is_onion_address (address : String) : Bool :=
  strEndsWith address ".onion" || strContainsSub address ".onion:"

/-- `KnownHostsManager._validate_onion_address`. -/
def KnownHostsManager.validate_onion_address (address : String) : Bool :=
  if address.data.contains ':' then
    let parts := rsplitColon1 address
    if ¬ strEndsWith parts.1 ".onion" then false
    else if parts.2 = "" then true
    else
      match pyInt parts.2 with
      | none => false
      | some n => 0 < n && n < 65536
  else true

/-- `KnownHostsManager._validate_ip_address`: requires `ip:port` shape
with a nonempty ip part and a port in 1..65535 (the ip text itself is not
checked further). -/
def KnownHostsManager.validate_ip_address (address : String) : Bool :=
  if ¬ address.data.contains ':' then false
  else
    let parts := address.splitOn ":"
    if parts.length ≠ 2 then false
    else if parts.getD 0 "" = "" then false
    else
      match pyInt (parts.getD 1 "") with
      | none => false
      | some n => 0 < n && n < 65536

/-- `KnownHostsManager._validate_address`. -/
def KnownHostsManager.validate_address (address : String) : Bool :=
  if KnownHostsManager.is_onion_address address then
    KnownHostsManager.validate_onion_address address
  else
    KnownHostsManager.validate_ip_address address

/-- `KnownHostsManager.get_host_fingerprint`. -/
def KnownHostsManager.get_host_fingerprint (hm : KnownHostsManager) (address : String) :
    Option String :=
  dictGet hm.hosts address

/-- `KnownHostsManager.get_all_fingerprints`. -/
def KnownHostsManager.get_all_fingerprints (hm : KnownHostsManager) : List String :=
  hm.hosts.map (fun kv => kv.2)

/-- `KnownHostsManager.get_nickname`. -/
def KnownHostsManager.get_nickname (hm : KnownHostsManager) (fingerprint : String) :
    Option String :=
  dictGet hm.nicknames fingerprint

/-- `KnownHostsManager.add_host`: validates the inputs, then records the
entry and saves the file; returns whether it succeeded, the new state and
the effects. -/
def KnownHostsManager.add_host (hm : KnownHostsManager) (address fingerprint : String) :
    Bool × KnownHostsManager × List HostsAction :=
  if address = "" then
    (false, hm, [.print "Error: Address cannot be empty."])
  else if fingerprint = "" then
    (false, hm, [.print "Error: Fingerprint cannot be empty."])
  else if ¬ KnownHostsManager.validate_fingerprint fingerprint then
    (false, hm, [.print
      "Error: Invalid fingerprint format. Expected a 64-character hexadecimal string (SHA256)."])
  else if ¬ KnownHostsManager.validate_address address then
    (false, hm, [])
  else
    (true, { hm with hosts := dictSet hm.hosts address fingerprint },
      [.save, .print ("Host " ++ address ++ " with fingerprint " ++ fingerprint ++
        " added successfully.")])

theorem validate_address_empty_false :
    KnownHostsManager.validate_address "" = false := by
  decide

theorem validate_fingerprint_ne_empty {fp : String}
    (h : KnownHostsManager.validate_fingerprint fp = true) : fp ≠ "" := by
  intro he
  subst he
  simp [KnownHostsManager.validate_fingerprint, String.length] at h

theorem mem_dictSet {d : List (String × String)} {k v : String} {x : String × String}
    (h : x ∈ dictSet d k v) : x ∈ d ∨ x = (k, v) := by
  rw [dictSet] at h
  split_ifs at h
  · rw [List.mem_map] at h
    obtain ⟨kv, hkv, hx⟩ := h
    by_cases he : kv.1 = k
    · rw [if_pos he] at hx
      exact Or.inr hx.symm
    · rw [if_neg he] at hx
      exact Or.inl (hx ▸ hkv)
  · rw [List.mem_append, List.mem_singleton] at h
    exact h

/-! ### Wire framing (src/network/connection.py `_send_raw`/`_receive_raw`,
and the `IOMixin` variant of src/network/connection_io.py)

The socket is modelled as the byte stream available to read: `recv(k)`
returns up to `k` bytes from its front, and an exhausted stream models the
peer having closed the connection (`recv` returns `b''`). -/

/-- `P2PConnection._send_raw` (connection.py): the bytes written to the
socket — a 4-byte big-endian length prefix, then the payload.  (Python's
`to_bytes(4, 'big')` raises `OverflowError` for a length ≥ 2^32; the
encoding below agrees with it on every smaller payload.) -/
def send_raw (data : Bytes) : Bytes :=
  natToBytesBE 4 data.length ++ data

/-- The receive loop of `_receive_raw`: `while len(data) < length`, read a
chunk of the missing size (`recv` returns what is available, at most the
requested amount), give up with `b''` on a zero-byte read. -/
def recvLoop (s : Bytes) (length : Nat) (data : Bytes) : Bytes :=
  if h : data.length < length then
    let chunk := s.take (length - data.length)
    if hc : chunk = [] then []
    else recvLoop (s.drop (length - data.length)) length (data ++ chunk)
  else data
termination_by s.length
decreasing_by
  have hs : s ≠ [] := by
    intro he
    refine hc ?_
    show List.take (length - List.length data) s = []
    rw [he]
    simp
  have : 0 < length - data.length := by omega
  rw [List.length_drop]
  cases s with
  | nil => exact absurd rfl hs
  | cons a t =>
    simp only [List.length_cons]
    omega

/-- `P2PConnection._receive_raw` (connection.py): read 4 length bytes
(empty read means the peer closed: return `b''`), then read exactly that
many payload bytes. -/
def receive_raw (s : Bytes) : Bytes :=
  let length_bytes := s.take 4
  if length_bytes = [] then []
  else recvLoop (s.drop 4) (bytesToNatBE length_bytes) []

theorem recvLoop_all (data rest : Bytes) :
    recvLoop (data ++ rest) data.length [] = data := by
  cases hd : data with
  | nil =>
    rw [recvLoop]
    simp
  | cons a t =>
    rw [recvLoop]
    have h1 : (([] : Bytes)).length < (a :: t).length := by simp
    rw [dif_pos h1]
    have htake : ((a :: t) ++ rest).take ((a :: t).length - ([] : Bytes).length) = a :: t := by
      simp only [List.length_nil, Nat.sub_zero]
      exact take_of_append _ _ _ rfl
    simp only [htake]
    rw [dif_neg (by simp)]
    have hdrop : ((a :: t) ++ rest).drop ((a :: t).length - ([] : Bytes).length) = rest := by
      simp only [List.length_nil, Nat.sub_zero]
      exact drop_of_append _ _ _ rfl
    rw [hdrop, recvLoop]
    simp

theorem receive_raw_send_raw (data rest : Bytes) (h : data.length < 2 ^ 32) :
    receive_raw (send_raw data ++ rest) = data := by
  rw [receive_raw, send_raw, List.append_assoc]
  have htake : (natToBytesBE 4 data.length ++ (data ++ rest)).take 4 =
      natToBytesBE 4 data.length :=
    take_of_append 4 _ _ (length_natToBytesBE 4 _)
  have hne : natToBytesBE 4 data.length ≠ [] := by
    intro he
    have := congrArg List.length he
    rw [length_natToBytesBE] at this
    simp at this
  rw [htake]
  simp only [hne, if_false]
  have hdrop : (natToBytesBE 4 data.length ++ (data ++ rest)).drop 4 = data ++ rest :=
    drop_of_append 4 _ _ (length_natToBytesBE 4 _)
  rw [hdrop, bytesToNatBE_natToBytesBE]
  have hmod : data.length % 256 ^ 4 = data.length := by
    apply Nat.mod_eq_of_lt
    have he : (256 : Nat) ^ 4 = 2 ^ 32 := by norm_num
    omega
  rw [hmod]
  exact recvLoop_all data rest

/-- The `b"GEN"` default transmission type of `IOMixin._send_raw`. -/
def genType : Bytes := [71, 69, 78]

/-- `IOMixin._send_raw` (connection_io.py): the payload is prefixed with a
transmission-type tag and a colon before framing. -/
def io_send_raw (data : Bytes) (transmission_type : Bytes := genType) : Bytes :=
  let data_to_send := transmission_type ++ [58] ++ data
  natToBytesBE 4 data_to_send.length ++ data_to_send

/-- Python `bytes.split(b':', 1)` when a colon is present: the part before
the first colon and the part after. -/
def splitColon1 : Bytes → Option (Bytes × Bytes)
  | [] => none
  | b :: rest =>
    if b = 58 then some ([], rest)
    else (splitColon1 rest).map (fun pr => (b :: pr.1, pr.2))

/-- `IOMixin._receive_raw` (connection_io.py): reads a frame like the
monolithic version, then splits off the transmission type; `none` models
the `b''` returned on a closed stream, a zero-length frame (the unpacking
of `split` raises and the `except` returns `b''`), or a frame without a
colon. -/
def io_receive_raw (s : Bytes) : Option (Bytes × Bytes) :=
  let length_bytes := s.take 4
  if length_bytes = [] then none
  else
    let data_raw := recvLoop (s.drop 4) (bytesToNatBE length_bytes) []
    match splitColon1 data_raw with
    | none => none
    | some pr => some (pr.2, pr.1)

theorem splitColon1_genType (data : Bytes) :
    splitColon1 (genType ++ [58] ++ data) = some (genType, data) := by
  rfl

theorem io_receive_raw_io_send_raw (data rest : Bytes) (h : data.length + 4 < 2 ^ 32) :
    io_receive_raw (io_send_raw data ++ rest) = some (data, genType) := by
  rw [io_send_raw, io_receive_raw, List.append_assoc]
  have hlen : (genType ++ [58] ++ data).length = data.length + 4 := by
    simp only [genType, List.append_assoc, List.length_append, List.length_cons,
      List.length_nil]
    omega
  have htake : (natToBytesBE 4 (genType ++ [58] ++ data).length ++
      ((genType ++ [58] ++ data) ++ rest)).take 4 =
      natToBytesBE 4 (genType ++ [58] ++ data).length :=
    take_of_append 4 _ _ (length_natToBytesBE 4 _)
  have hne : natToBytesBE 4 (genType ++ [58] ++ data).length ≠ [] := by
    intro he
    have := congrArg List.length he
    rw [length_natToBytesBE] at this
    simp at this
  rw [htake]
  simp only [hne, if_false]
  have hdrop : (natToBytesBE 4 (genType ++ [58] ++ data).length ++
      ((genType ++ [58] ++ data) ++ rest)).drop 4 = (genType ++ [58] ++ data) ++ rest :=
    drop_of_append 4 _ _ (length_natToBytesBE 4 _)
  rw [hdrop, bytesToNatBE_natToBytesBE]
  have hmod : (genType ++ [58] ++ data).length % 256 ^ 4 = (genType ++ [58] ++ data).length := by
    apply Nat.mod_eq_of_lt
    have he : (256 : Nat) ^ 4 = 2 ^ 32 := by norm_num
    omega
  rw [hmod, recvLoop_all, splitColon1_genType]

/-! ### Connection state (src/network/connection_base.py and mixins) -/

/-- Python `s.startswith(pre)`. -/
def strStartsWith (s pre : String) : Bool := pre.data.isPrefixOf s.data

/-- Python `s.strip()` on ASCII whitespace. -/
def pyStrip (s : String) : String :=
  String.mk ((s.data.dropWhile isPyWs).reverse.dropWhile isPyWs |>.reverse)

/-- Python `s.split()` (split on whitespace runs, dropping empty parts);
the fuel is instantiated to the character count. -/
def pySplitWsAux : Nat → List Char → List String
  | _, [] => []
  | 0, _ :: _ => []
  | fuel + 1, l =>
    let l1 := l.dropWhile isPyWs
    match l1 with
    | [] => []
    | _ :: _ =>
      String.mk (l1.takeWhile (fun c => ¬ isPyWs c)) ::
        pySplitWsAux fuel (l1.dropWhile (fun c => ¬ isPyWs c))

def pySplitWs (s : String) : List String := pySplitWsAux s.data.length s.data

/-- First index of a substring (Python `s.index(sub)`), `none` when absent. -/
def strIdx (s sub : String) : Option Nat :=
  (List.range (s.data.length + 1)).find? (fun i => sub.data.isPrefixOf (s.data.drop i))

/-- How Python prints an `(ip, port)` address tuple inside an f-string. -/
def addrRepr (a : String × Nat) : String :=
  "('" ++ a.1 ++ "', " ++ toString a.2 ++ ")"

/-- Pending inbound file metadata (`MessageMixin._file_receive_info`):
name, announced size, bytes received so far.  The open file object is
represented by its path under `received_files/`. -/
structure FileReceiveInfo where
  name : String
  size : Int
  received : Nat
deriving Repr, DecidableEq

/-- State of `P2PConnection` (src/network/connection_base.py plus the
mixin-held fields).  Sockets are opaque handles; thread objects, locks and
wall-clock timestamps are not represented — thread starts and socket
operations appear as explicit actions instead.  `file_transfer_bool`
stands for the module-level `file_transfer.FILE_TRANSFER_BOOL` global. -/
structure P2PConnection where
  connected : Bool
  socket : Option Nat
  peer_socket : Option Nat
  crypto : CryptoManager
  hosts_manager : KnownHostsManager
  message_count : Nat
  server_running : Bool
  is_server_mode : Bool
  peer_connection_details : Option (String × Nat)
  receiving_file : Bool
  file_receive_info : Option FileReceiveInfo
  file_transfer_bool : Bool
deriving Repr, DecidableEq

/-- Observable effects of a connection-state step. -/
inductive ConnAction where
  | message_callback (text : String)
  | chat_message (nickname : String) (text : String)
  | close_socket (sock : Nat)
  | send_raw (data : Bytes)
  | start_receive_thread
  | start_renewal_thread
  | open_file (path : String)
  | write_file (chunk : Bytes)
  | close_file
deriving Repr, DecidableEq

/-- `P2PConnection._stop_peer_connection` (connection_base.py): clear
`connected`, close and drop the peer socket, join the session threads. -/
def P2PConnection.stop_peer_connection (st : P2PConnection) :
    P2PConnection × List ConnAction :=
  ({ st with connected := false, peer_socket := none },
    match st.peer_socket with
    | some sock => [.close_socket sock]
    | none => [])

/-- One iteration of `PeerMixin._accept_connections` (connection_peer.py)
after `accept()` returned a new socket and address.  The outcome of
`_exchange_handshake_data` — a network exchange — enters as the
`handshake_ok` parameter. -/
def P2PConnection.accept_step (st : P2PConnection) (client_socket : Nat)
    (address : String × Nat) (handshake_ok : Bool) : P2PConnection × List ConnAction :=
  if st.connected then
    (st, [.message_callback ("Rejected incoming connection from " ++ addrRepr address ++
      ": Already connected."), .close_socket client_socket])
  else
    let stop := st.stop_peer_connection
    let st1 := stop.1
    let st2 := { st1 with
      peer_socket := some client_socket,
      peer_connection_details := some address,
      is_server_mode := true }
    let acts := stop.2 ++ [.message_callback ("Incoming connection from " ++
      addrRepr address ++ " received.")]
    if handshake_ok then
      ({ st2 with connected := true, message_count := 0 },
        acts ++ [.start_receive_thread, .start_renewal_thread,
          .message_callback ("Successfully connected to " ++ addrRepr address)])
    else
      ({ st2 with peer_socket := none }, acts ++ [.close_socket client_socket])

/-- `MessageMixin._get_peer_nickname` (connection_message.py): nickname if
known and nonempty, else the first 8 characters of the fingerprint,
`"Unknown"` when no peer key is set. -/
def P2PConnection.get_peer_nickname (st : P2PConnection) : String :=
  match st.crypto.get_peer_fingerprint with
  | .error _ => "Unknown"
  | .ok fp =>
    match st.hosts_manager.get_nickname fp with
    | some nickname => if nickname = "" then String.mk (fp.data.take 8) else nickname
    | none => String.mk (fp.data.take 8)

/-- `MessageMixin.send_message` (connection_message.py): returns silently
when not connected or without a peer socket; otherwise encrypts the text
(the fresh 12-byte nonce of `os.urandom` enters as `nonce`) and hands the
result to `self._send_raw`; an encryption error is reported through the
callback. -/
def P2PConnection.send_message (st : P2PConnection) (nonce : Bytes) (message : String) :
    P2PConnection × List ConnAction :=
  if ¬ st.connected ∨ st.peer_socket = none then (st, [])
  else
    match st.crypto.encrypt_message nonce message with
    | .ok encrypted_data => (st, [.send_raw encrypted_data])
    | .error e => (st, [.message_callback ("Error sending message: " ++ e)])

/-- `MessageMixin._handle_ping_pong` (connection_message.py).  A pong
reply goes through `send_message`, whose fresh nonce enters as
`pong_nonce`; the pong time bookkeeping touches only the ping table, which
is not represented. -/
def P2PConnection.handle_ping_pong (st : P2PConnection) (pong_nonce : Bytes)
    (message : String) : Bool × P2PConnection × List ConnAction :=
  if strStartsWith message "__PING__" then
    let ping_id := String.mk (message.data.drop 8)
    let send := st.send_message pong_nonce ("__PONG__" ++ ping_id)
    (true, send.1, send.2)
  else if strStartsWith message "__PONG__" then
    (true, st, [])
  else
    (false, st, [])

/-- `MessageMixin._handle_file_transfer` (connection_message.py). -/
def P2PConnection.handle_file_transfer (st : P2PConnection) (message : String) :
    Bool × P2PConnection × List ConnAction :=
  if strStartsWith message "__FILE_ACCEPT__" then
    if st.file_receive_info.isSome then
      (true, { st with receiving_file := true }, [])
    else
      (true, st, [])
  else
    (false, st, [])

/-- The `__FILE_TRANSFER__` announcement branch of
`MessageMixin._receive_messages`: parse `name size` after the token, open
the output file and record the pending transfer; a malformed size reports
an error, a short announcement falls through to the remaining checks. -/
def P2PConnection.file_announce_step (st : P2PConnection) (message : String) :
    Option (P2PConnection × List ConnAction) :=
  match strIdx message "__FILE_TRANSFER__" with
  | none => none
  | some idx =>
    let file_info := pySplitWs (pyStrip (String.mk
      (message.data.drop (idx + "__FILE_TRANSFER__".length))))
    if h2 : 2 ≤ file_info.length then
      let file_name := file_info.getD 0 ""
      match pyInt (file_info.getD 1 "") with
      | none => some (st, [.message_callback "> [ERROR] Invalid file transfer request."])
      | some file_size =>
        some ({ st with file_receive_info := some (FileReceiveInfo.mk file_name file_size 0) },
          [.open_file ("received_files/" ++ file_name), .message_callback message])
    else none

/-- One iteration of `MessageMixin._receive_messages`
(connection_message.py) outside file-receiving mode, given what
`self._receive_raw()` produced (`none` models the falsy `b''` of a closed
connection).  `pong_nonce` is the fresh nonce a pong reply would use. -/
def P2PConnection.receive_step (st : P2PConnection) (frame : Option Bytes)
    (pong_nonce : Bytes) : P2PConnection × List ConnAction :=
  match frame with
  | none =>
    let stop := st.stop_peer_connection
    (stop.1, .message_callback
      "[INFO] The peer has closed the connection or disconnected." :: stop.2)
  | some encrypted_data =>
    match st.crypto.decrypt_message encrypted_data with
    | .error e => (st, [.message_callback ("Error receiving message: " ++ e)])
    | .ok message =>
      if strContainsSub message "__FILE_TRANSFER_ACCEPTED__" ∧ st.file_receive_info.isSome
      then ({ st with receiving_file := true }, [])
      else
        match (if strContainsSub message "__FILE_TRANSFER__"
            then st.file_announce_step message else none) with
        | some out => out
        | none =>
          let ping := st.handle_ping_pong pong_nonce message
          if ping.1 then (ping.2.1, ping.2.2)
          else
            let ft := P2PConnection.handle_file_transfer st message
            if ft.1 then (ft.2.1, ft.2.2)
            else if pyStrip message = "__DISCONNECT__" then
              let stop := st.stop_peer_connection
              (stop.1, .message_callback "[INFO] The peer has disconnected." :: stop.2)
            else
              ({ st with message_count := st.message_count + 1 },
                [.chat_message st.get_peer_nickname message])

/-! ### Handshake and TOFU (src/network/connection_handshake.py, and the
monolithic src/network/connection.py) -/

/-- `HandshakeMixin._verify_tofu_identity` (connection_handshake.py):
strict Trust-On-First-Use — accept only a fingerprint already present in
the known-hosts store, under any address. -/
def verify_tofu_identity (crypto : CryptoManager) (hosts_manager : KnownHostsManager)
    (peer_ip : String) (peer_port : Nat) : Bool × List String :=
  match crypto.get_peer_fingerprint with
  | .error e => (false, ["TOFU verification failed: " ++ e])
  | .ok peer_fingerprint =>
    let known_fingerprints := hosts_manager.get_all_fingerprints
    if known_fingerprints.contains peer_fingerprint then
      (true, ["Peer identity verified: " ++ peer_fingerprint])
    else
      (false, ["Connection refused: unknown peer fingerprint " ++ peer_fingerprint,
        "Add this peer to known hosts with: /addHost " ++ peer_ip ++ ":" ++
          toString peer_port ++ " " ++ peer_fingerprint])

/-- `P2PConnection._verify_tofu_identity` (connection.py): per-address
TOFU — reject only when the address has a stored fingerprint that differs;
an address with no stored fingerprint is accepted as a new peer, with an
informational `/addHost` hint. -/
def verify_tofu_identity_monolith (crypto : CryptoManager)
    (hosts_manager : KnownHostsManager) (peer_ip : String) (peer_port : Nat) :
    Bool × List String :=
  match crypto.get_peer_fingerprint with
  | .error e => (false, ["TOFU verification failed: " ++ e])
  | .ok peer_fingerprint =>
    match hosts_manager.get_host_fingerprint (peer_ip ++ ":" ++ toString peer_port) with
    | some expected_fingerprint =>
      if expected_fingerprint ≠ peer_fingerprint then
        (false, ["WARNING: Peer fingerprint mismatch!",
          "Expected: " ++ expected_fingerprint,
          "Received: " ++ peer_fingerprint])
      else
        (true, ["Peer identity verified (TOFU)"])
    | none =>
      (true, ["New peer: " ++ peer_fingerprint,
        "Add to known hosts with: /addHost " ++ peer_ip ++ ":" ++
          toString peer_port ++ " " ++ peer_fingerprint])

/-- The `CryptoManager` after `set_peer_public_key` with the public key of
the identity whose private scalar is `peerPriv` (what the key exchange of
a handshake installs). -/
def derivedWith (cm : CryptoManager) (peerPriv : Nat) : CryptoManager :=
  { cm with
    peer_public_key := some (pubOf peerPriv),
    session_key := some (hkdfSHA256 32
      (natToBytesBE 48 (ecdhExchange cm.private_key (pubOf peerPriv))) sessionKeyInfo) }

theorem set_peer_public_key_derivedWith (cm other : CryptoManager) :
    cm.set_peer_public_key other.get_public_bytes = .ok (derivedWith cm other.private_key) :=
  set_peer_public_key_pubOf cm other.private_key

theorem verify_signature_sign (cm : CryptoManager) (challenge : Bytes) :
    CryptoManager.verify_signature cm.get_public_bytes challenge
      (cm.sign_challenge challenge) = true := by
  rw [CryptoManager.verify_signature, CryptoManager.get_public_bytes,
    pointDecode_encode (pubOf_lt _)]
  simp [CryptoManager.sign_challenge, CryptoManager.get_public_bytes]

/-- The steps of `_exchange_handshake_data`, in the order the code runs
them for each role. -/
inductive HSEvent where
  | send_pk_challenge
  | recv_pk_challenge
  | send_pk_challenge_sig
  | recv_pk_challenge_sig
  | send_sig
  | recv_sig
  | verify_sig (ok : Bool)
  | set_peer_key
  | sign_peer_challenge
  | tofu_check (ok : Bool)
  | established
deriving Repr, DecidableEq

/-- The tail of `_exchange_handshake_data` shared by both roles: the TOFU
check (run only when both peer ip and port are truthy), then the success
report.  Timestamps and colour codes of the callback lines are omitted. -/
def finishHandshakeSide (cm : CryptoManager) (hosts_manager : KnownHostsManager)
    (peer : String × Nat) (evs : List HSEvent) (msgs : List String) :
    Bool × CryptoManager × List HSEvent × List String :=
  if peer.1 ≠ "" ∧ peer.2 ≠ 0 then
    let t := verify_tofu_identity cm hosts_manager peer.1 peer.2
    if t.1 then
      (true, cm, evs ++ [.tofu_check true, .established],
        msgs ++ t.2 ++ ["Secure connection established"])
    else
      (false, cm, evs ++ [.tofu_check false], msgs ++ t.2)
  else
    (true, cm, evs ++ [.established], msgs ++ ["Secure connection established"])

/-- A joint run of `HandshakeMixin._exchange_handshake_data`
(connection_handshake.py; the monolithic connection.py runs the same
steps) between an initiator (`send_public_key_first = True`) and a
responder.  The random 32-byte challenges of `os.urandom` enter as
arguments; each side's result is (return value, crypto state, events,
callback lines). -/
def run_handshake (cI cR : CryptoManager) (hmI hmR : KnownHostsManager)
    (challengeI challengeR : Bytes) (peerI peerR : String × Nat) :
    (Bool × CryptoManager × List HSEvent × List String) ×
    (Bool × CryptoManager × List HSEvent × List String) :=
  let m1pk := cI.get_public_bytes
  match cR.set_peer_public_key m1pk with
  | .error e =>
    ((false, cI, [.send_pk_challenge], []),
      (false, cR, [.recv_pk_challenge], ["Handshake failed: " ++ e]))
  | .ok cR1 =>
    let sigR := cR1.sign_challenge challengeI
    let m2pk := cR1.get_public_bytes
    if CryptoManager.verify_signature m2pk challengeI sigR then
      match cI.set_peer_public_key m2pk with
      | .error e =>
        ((false, cI, [.send_pk_challenge, .recv_pk_challenge_sig, .verify_sig true],
          ["Handshake failed: " ++ e]),
          (false, cR1, [.recv_pk_challenge, .set_peer_key, .sign_peer_challenge,
            .send_pk_challenge_sig], []))
      | .ok cI1 =>
        let sigI := cI1.sign_challenge challengeR
        let outI := finishHandshakeSide cI1 hmI peerI
          [.send_pk_challenge, .recv_pk_challenge_sig, .verify_sig true, .set_peer_key,
            .sign_peer_challenge, .send_sig] []
        if CryptoManager.verify_signature m1pk challengeR sigI then
          (outI, finishHandshakeSide cR1 hmR peerR
            [.recv_pk_challenge, .set_peer_key, .sign_peer_challenge,
              .send_pk_challenge_sig, .recv_sig, .verify_sig true] [])
        else
          (outI, (false, cR1, [.recv_pk_challenge, .set_peer_key, .sign_peer_challenge,
            .send_pk_challenge_sig, .recv_sig, .verify_sig false],
            ["Peer authentication failed: Invalid signature"]))
    else
      ((false, cI, [.send_pk_challenge, .recv_pk_challenge_sig, .verify_sig false],
        ["Peer authentication failed: Invalid signature"]),
        (false, cR1, [.recv_pk_challenge, .set_peer_key, .sign_peer_challenge,
          .send_pk_challenge_sig], []))

/-- In every honest run both signatures verify, each side installs the
other's key (deriving its session), and the handshake's outcome is exactly
the TOFU verdict, checked only after the signature exchange. -/
theorem run_handshake_spec (cI cR : CryptoManager) (hmI hmR : KnownHostsManager)
    (challengeI challengeR : Bytes) (peerI peerR : String × Nat)
    (hI : peerI.1 ≠ "" ∧ peerI.2 ≠ 0) (hR : peerR.1 ≠ "" ∧ peerR.2 ≠ 0) :
    run_handshake cI cR hmI hmR challengeI challengeR peerI peerR =
      ((((verify_tofu_identity (derivedWith cI cR.private_key) hmI peerI.1 peerI.2).1,
        derivedWith cI cR.private_key,
        [.send_pk_challenge, .recv_pk_challenge_sig, .verify_sig true, .set_peer_key,
          .sign_peer_challenge, .send_sig] ++
          (if (verify_tofu_identity (derivedWith cI cR.private_key) hmI peerI.1 peerI.2).1
            then [.tofu_check true, .established] else [.tofu_check false]),
        (verify_tofu_identity (derivedWith cI cR.private_key) hmI peerI.1 peerI.2).2 ++
          (if (verify_tofu_identity (derivedWith cI cR.private_key) hmI peerI.1 peerI.2).1
            then ["Secure connection established"] else []))),
      (((verify_tofu_identity (derivedWith cR cI.private_key) hmR peerR.1 peerR.2).1,
        derivedWith cR cI.private_key,
        [.recv_pk_challenge, .set_peer_key, .sign_peer_challenge, .send_pk_challenge_sig,
          .recv_sig, .verify_sig true] ++
          (if (verify_tofu_identity (derivedWith cR cI.private_key) hmR peerR.1 peerR.2).1
            then [.tofu_check true, .established] else [.tofu_check false]),
        (verify_tofu_identity (derivedWith cR cI.private_key) hmR peerR.1 peerR.2).2 ++
          (if (verify_tofu_identity (derivedWith cR cI.private_key) hmR peerR.1 peerR.2).1
            then ["Secure connection established"] else [])))) := by
  have h1 : cR.set_peer_public_key cI.get_public_bytes =
      .ok (derivedWith cR cI.private_key) := set_peer_public_key_derivedWith cR cI
  have h2 : cI.set_peer_public_key ((derivedWith cR cI.private_key).get_public_bytes) =
      .ok (derivedWith cI cR.private_key) := set_peer_public_key_derivedWith cI _
  have hv1 : CryptoManager.verify_signature
      ((derivedWith cR cI.private_key).get_public_bytes) challengeI
      ((derivedWith cR cI.private_key).sign_challenge challengeI) = true :=
    verify_signature_sign _ _
  have hv2 : CryptoManager.verify_signature cI.get_public_bytes challengeR
      ((derivedWith cI cR.private_key).sign_challenge challengeR) = true :=
    verify_signature_sign cI challengeR
  simp only [run_handshake, h1, h2, hv1, hv2, if_true, finishHandshakeSide,
    if_pos hI, if_pos hR]
  cases hbI : (verify_tofu_identity (derivedWith cI cR.private_key) hmI peerI.1 peerI.2).1 <;>
    cases hbR :
      (verify_tofu_identity (derivedWith cR cI.private_key) hmR peerR.1 peerR.2).1 <;>
    simp [hbI, hbR]

/-! ### Example states used by witnesses and counterexamples -/

/-- An empty known-hosts store. -/
def hmEmpty : KnownHostsManager := { hosts := [], nicknames := [] }

/-- An identity with private scalar 5. -/
def cmExA : CryptoManager := { private_key := 5 }

/-- An identity with private scalar 7. -/
def cmExB : CryptoManager := { private_key := 7 }

/-- A 32-byte session key. -/
def keyEx : Bytes := List.replicate 32 9

/-- A 12-byte nonce. -/
def nonceEx : Bytes := List.replicate 12 3

/-- A crypto manager with an established session. -/
def cmSessionEx : CryptoManager :=
  { private_key := 5, peer_public_key := some (pubOf 7), session_key := some keyEx }

/-- A crypto manager holding a peer key but no session. -/
def cmUnknownPeer : CryptoManager :=
  { private_key := 5, peer_public_key := some (pubOf 7), session_key := none }

/-- A connected `P2PConnection`. -/
def stConnEx : P2PConnection :=
  { connected := true, socket := some 1, peer_socket := some 2, crypto := cmSessionEx,
    hosts_manager := hmEmpty, message_count := 0, server_running := true,
    is_server_mode := true, peer_connection_details := some ("10.0.0.2", 7),
    receiving_file := false, file_receive_info := none, file_transfer_bool := false }

/-! ### The claims -/

/-- C2: for every established session, `decrypt_message ∘ encrypt_message`
is the identity on strings (empty and unicode included), and
`decrypt_bytes ∘ encrypt_bytes` is the identity on byte buffers. -/
theorem c2_roundtrip {cm : CryptoManager} {key nonce : Bytes}
    (hsk : cm.session_key = some key) (hk : key.length = 32) (hn : nonce.length = 12)
    (m : String) (b : Bytes) :
    (∀ ct, cm.encrypt_message nonce m = .ok ct → cm.decrypt_message ct = .ok m) ∧
    (∀ ct, cm.encrypt_bytes nonce b = .ok ct → cm.decrypt_bytes ct = .ok b) := by
  constructor
  · intro ct hct
    rw [encrypt_message_eq hsk] at hct
    injection hct with hct
    rw [← hct]
    exact decrypt_message_encrypt_message hsk hk hn m
  · intro ct hct
    rw [encrypt_bytes_eq hsk] at hct
    injection hct with hct
    rw [← hct]
    exact decrypt_bytes_encrypt_bytes hsk hk hn b

/-- C2 witness: the round trip at a concrete session, a unicode message
and a concrete buffer. -/
theorem c2_roundtrip_witness :
    (∀ ct, cmSessionEx.encrypt_message nonceEx "héllo ∀ 🙂" = .ok ct →
      cmSessionEx.decrypt_message ct = .ok "héllo ∀ 🙂") ∧
    (∀ ct, cmSessionEx.encrypt_bytes nonceEx [0, 1, 255] = .ok ct →
      cmSessionEx.decrypt_bytes ct = .ok [0, 1, 255]) :=
  c2_roundtrip rfl (by decide) (by decide) "héllo ∀ 🙂" [0, 1, 255]

/-- C3: tampering with a captured `nonce ‖ ciphertext` — flipping any
single bit, truncating, or decrypting under a different session key —
makes decryption fail with the authentication error; it never succeeds. -/
theorem c3_tamper_rejection {cm : CryptoManager} {key nonce pt framed : Bytes}
    (hsk : cm.session_key = some key) (hk : key.length = 32) (hn : nonce.length = 12)
    (hbound : pt.length < 2 ^ 32) (hframed : cm.encrypt_bytes nonce pt = .ok framed) :
    (∀ i j, i < framed.length → j < 8 →
      cm.decrypt_bytes (flipBit framed i j) = .error "Authentication failed" ∧
      cm.decrypt_message (flipBit framed i j) = .error "Authentication failed") ∧
    (∀ m, m < framed.length →
      cm.decrypt_bytes (framed.take m) = .error "Authentication failed") ∧
    (∀ (cm' : CryptoManager) (key' : Bytes), cm'.session_key = some key' → key' ≠ key →
      cm'.decrypt_bytes framed = .error "Authentication failed") := by
  rw [encrypt_bytes_eq hsk] at hframed
  injection hframed with hframed
  subst hframed
  refine ⟨fun i j hi hj => ?_, fun m hm => ?_, fun cm' key' hsk' hne => ?_⟩
  · have h1 := decrypt_bytes_flip_error hsk hk hn hi hj
    exact ⟨h1, decrypt_bytes_to_message_error hsk h1⟩
  · exact decrypt_bytes_truncate_error hsk hk hn hbound hm
  · exact decrypt_bytes_wrong_key_error hsk' hk hn hbound hne

/-- C3 witness: tamper rejection at a concrete session and plaintext. -/
theorem c3_tamper_rejection_witness :
    (∀ i j, i < (nonceEx ++ aesgcmEncrypt keyEx nonceEx [10, 20]).length → j < 8 →
      cmSessionEx.decrypt_bytes
        (flipBit (nonceEx ++ aesgcmEncrypt keyEx nonceEx [10, 20]) i j) =
        .error "Authentication failed" ∧
      cmSessionEx.decrypt_message
        (flipBit (nonceEx ++ aesgcmEncrypt keyEx nonceEx [10, 20]) i j) =
        .error "Authentication failed") ∧
    (∀ m, m < (nonceEx ++ aesgcmEncrypt keyEx nonceEx [10, 20]).length →
      cmSessionEx.decrypt_bytes
        ((nonceEx ++ aesgcmEncrypt keyEx nonceEx [10, 20]).take m) =
        .error "Authentication failed") ∧
    (∀ (cm' : CryptoManager) (key' : Bytes), cm'.session_key = some key' → key' ≠ keyEx →
      cm'.decrypt_bytes (nonceEx ++ aesgcmEncrypt keyEx nonceEx [10, 20]) =
        .error "Authentication failed") :=
  c3_tamper_rejection rfl (by decide) (by decide) (by decide)
    (encrypt_bytes_eq rfl nonceEx [10, 20])

/-- C4: after each side installs the other's public key, both derive the
same 32-byte session key (ECDH is symmetric and both apply the same
HKDF-SHA256 with the fixed info string), so a message encrypted by one
side decrypts on the other. -/
theorem c4_handshake_symmetry (cmA cmB : CryptoManager) (cmA' cmB' : CryptoManager)
    (hA : cmA.set_peer_public_key cmB.get_public_bytes = .ok cmA')
    (hB : cmB.set_peer_public_key cmA.get_public_bytes = .ok cmB') :
    (∃ k, cmA'.session_key = some k ∧ cmB'.session_key = some k ∧ k.length = 32) ∧
    (∀ nonce m, nonce.length = 12 →
      ∀ ct, cmA'.encrypt_message nonce m = .ok ct → cmB'.decrypt_message ct = .ok m) := by
  rw [set_peer_public_key_derivedWith] at hA hB
  injection hA with hA
  injection hB with hB
  subst hA
  subst hB
  have hshared : ecdhExchange cmA.private_key (pubOf cmB.private_key) =
      ecdhExchange cmB.private_key (pubOf cmA.private_key) := ecdhExchange_comm _ _
  have hkeq : (derivedWith cmA cmB.private_key).session_key =
      (derivedWith cmB cmA.private_key).session_key := by
    simp only [derivedWith, hshared]
  constructor
  · refine ⟨hkdfSHA256 32 (natToBytesBE 48
      (ecdhExchange cmA.private_key (pubOf cmB.private_key))) sessionKeyInfo,
      ?_, ?_, length_hkdfSHA256 32 _ _⟩
    · simp only [derivedWith]
    · rw [← hkeq]
      simp only [derivedWith]
  · intro nonce m hn ct hct
    rw [encrypt_message_eq rfl] at hct
    injection hct with hct
    rw [← hct]
    exact decrypt_message_encrypt_message (hkeq ▸ rfl) (length_hkdfSHA256 32 _ _) hn m

/-- C4 witness: symmetric derivation for the identities with scalars 5
and 7. -/
theorem c4_handshake_symmetry_witness :
    (∃ k, (derivedWith cmExA 7).session_key = some k ∧
      (derivedWith cmExB 5).session_key = some k ∧ k.length = 32) ∧
    (∀ nonce m, nonce.length = 12 →
      ∀ ct, (derivedWith cmExA 7).encrypt_message nonce m = .ok ct →
        (derivedWith cmExB 5).decrypt_message ct = .ok m) :=
  c4_handshake_symmetry cmExA cmExB (derivedWith cmExA 7) (derivedWith cmExB 5)
    (set_peer_public_key_derivedWith cmExA cmExB)
    (set_peer_public_key_derivedWith cmExB cmExA)

/-- C10: `get_peer_fingerprint` raises when no peer public key is set, and
otherwise returns the hex-encoded SHA-256 digest of the peer key's
compressed-point encoding — 64 lowercase hex characters. -/
theorem c10_get_peer_fingerprint (cm : CryptoManager) :
    (cm.peer_public_key = none →
      cm.get_peer_fingerprint = .error "Peer's public key not defined") ∧
    (∀ q, cm.peer_public_key = some q →
      cm.get_peer_fingerprint = .ok (bytesHex (sha256Model (pointEncode q)))) ∧
    (∀ s, cm.get_peer_fingerprint = .ok s →
      s.length = 64 ∧ ∀ c ∈ s.data, c ∈ "0123456789abcdef".data) := by
  refine ⟨fun hnone => ?_, fun q hq => ?_, fun s hs => ?_⟩
  · rw [CryptoManager.get_peer_fingerprint, hnone]
  · rw [CryptoManager.get_peer_fingerprint, hq]
  · rw [CryptoManager.get_peer_fingerprint] at hs
    match hpk : cm.peer_public_key with
    | none =>
      rw [hpk] at hs
      exact Except.noConfusion hs
    | some q =>
      rw [hpk] at hs
      simp only [Except.ok.injEq] at hs
      subst hs
      constructor
      · rw [length_bytesHex, length_sha256Model]
      · intro c hc
        exact mem_bytesHex_isHex hc

/-- C1 (amended): in the mixin implementation
(connection_handshake.py), a peer fingerprint absent from the trust store
is rejected — `_verify_tofu_identity` returns `False` with callback lines
carrying the fingerprint and the exact `/addHost` command — and the whole
handshake then returns failure.  (The monolithic connection.py instead
accepts an unknown fingerprint at a new address; see the counterexample.) -/
theorem c1_tofu_strict_reject :
    (∀ (cm : CryptoManager) (hm : KnownHostsManager) (q : Nat) (ip : String) (port : Nat),
      cm.peer_public_key = some q →
      hm.get_all_fingerprints.contains (bytesHex (sha256Model (pointEncode q))) = false →
      verify_tofu_identity cm hm ip port =
        (false, ["Connection refused: unknown peer fingerprint " ++
            bytesHex (sha256Model (pointEncode q)),
          "Add this peer to known hosts with: /addHost " ++ ip ++ ":" ++ toString port ++
            " " ++ bytesHex (sha256Model (pointEncode q))])) ∧
    (∀ (cI cR : CryptoManager) (hmI hmR : KnownHostsManager) (chI chR : Bytes)
      (pI pR : String × Nat), pI.1 ≠ "" → pI.2 ≠ 0 → pR.1 ≠ "" → pR.2 ≠ 0 →
      hmI.get_all_fingerprints.contains
        (bytesHex (sha256Model (pointEncode (pubOf cR.private_key)))) = false →
      (run_handshake cI cR hmI hmR chI chR pI pR).1.1 = false) := by
  have htofu : ∀ (cm : CryptoManager) (hm : KnownHostsManager) (q : Nat) (ip : String)
      (port : Nat), cm.peer_public_key = some q →
      hm.get_all_fingerprints.contains (bytesHex (sha256Model (pointEncode q))) = false →
      verify_tofu_identity cm hm ip port =
        (false, ["Connection refused: unknown peer fingerprint " ++
            bytesHex (sha256Model (pointEncode q)),
          "Add this peer to known hosts with: /addHost " ++ ip ++ ":" ++ toString port ++
            " " ++ bytesHex (sha256Model (pointEncode q))]) := by
    intro cm hm q ip port hq hcontains
    rw [verify_tofu_identity, CryptoManager.get_peer_fingerprint, hq]
    simp only [hcontains, Bool.false_eq_true, if_false]
  refine ⟨htofu, ?_⟩
  intro cI cR hmI hmR chI chR pI pR h1 h2 h3 h4 hcontains
  rw [run_handshake_spec cI cR hmI hmR chI chR pI pR ⟨h1, h2⟩ ⟨h3, h4⟩]
  have := htofu (derivedWith cI cR.private_key) hmI (pubOf cR.private_key) pI.1 pI.2
    rfl hcontains
  rw [this]

/-- C1 counterexample: the monolithic `P2PConnection._verify_tofu_identity`
(connection.py) accepts a peer whose fingerprint is not in the (empty)
trust store — it returns `True` for a new address instead of rejecting. -/
theorem c1_monolith_accepts_unknown_cex :
    (verify_tofu_identity_monolith cmUnknownPeer hmEmpty "203.0.113.7" 34567).1 = true ∧
    hmEmpty.get_all_fingerprints = [] := by
  constructor
  · rfl
  · rfl

/-- C5: while connected, an additional inbound accept attempt is rejected:
the new socket is closed, a rejection line is reported, and the state —
peer socket, crypto session, message counter, everything — is unchanged. -/
theorem c5_single_session (st : P2PConnection) (client_socket : Nat)
    (address : String × Nat) (handshake_ok : Bool) (h : st.connected = true) :
    st.accept_step client_socket address handshake_ok =
      (st, [.message_callback ("Rejected incoming connection from " ++ addrRepr address ++
        ": Already connected."), .close_socket client_socket]) ∧
    (st.accept_step client_socket address handshake_ok).1.peer_socket = st.peer_socket ∧
    (st.accept_step client_socket address handshake_ok).1.crypto = st.crypto ∧
    (st.accept_step client_socket address handshake_ok).1.message_count =
      st.message_count := by
  have heq : st.accept_step client_socket address handshake_ok =
      (st, [.message_callback ("Rejected incoming connection from " ++ addrRepr address ++
        ": Already connected."), .close_socket client_socket]) := by
    rw [P2PConnection.accept_step, if_pos h]
  exact ⟨heq, by rw [heq], by rw [heq], by rw [heq]⟩

/-- C5 witness: the rejection at a concrete connected instance. -/
theorem c5_single_session_witness :
    stConnEx.accept_step 99 ("10.0.0.9", 4321) false =
      (stConnEx, [.message_callback ("Rejected incoming connection from " ++
        addrRepr ("10.0.0.9", 4321) ++ ": Already connected."), .close_socket 99]) ∧
    (stConnEx.accept_step 99 ("10.0.0.9", 4321) false).1.peer_socket =
      stConnEx.peer_socket ∧
    (stConnEx.accept_step 99 ("10.0.0.9", 4321) false).1.crypto = stConnEx.crypto ∧
    (stConnEx.accept_step 99 ("10.0.0.9", 4321) false).1.message_count =
      stConnEx.message_count :=
  c5_single_session stConnEx 99 ("10.0.0.9", 4321) false rfl

/-- C6 (amended): every payload below the 4-byte length bound round-trips
unchanged through the framing layer — the monolithic
`_send_raw`/`_receive_raw`, and the `IOMixin` variant, whose frame body
additionally carries a `GEN:` transmission-type tag; however a received
length of 0 yields the same `b''` value that signals a closed connection
(the `IOMixin` even treats it as an error), not a distinct valid empty
frame. -/
theorem c6_framing_roundtrip :
    (∀ data rest : Bytes, data.length < 2 ^ 32 →
      receive_raw (send_raw data ++ rest) = data) ∧
    (∀ data rest : Bytes, data.length + 4 < 2 ^ 32 →
      io_receive_raw (io_send_raw data ++ rest) = some (data, genType)) ∧
    receive_raw [0, 0, 0, 0] = [] ∧ receive_raw [] = [] ∧
    io_receive_raw [0, 0, 0, 0] = none ∧ io_receive_raw [] = none := by
  have hloop : recvLoop [] 0 [] = [] := by
    rw [recvLoop]
    simp
  refine ⟨receive_raw_send_raw, io_receive_raw_io_send_raw, ?_, rfl, ?_, rfl⟩
  · show (if ([0, 0, 0, 0] : Bytes).take 4 = [] then []
      else recvLoop (([0, 0, 0, 0] : Bytes).drop 4)
        (bytesToNatBE (([0, 0, 0, 0] : Bytes).take 4)) []) = []
    rw [if_neg (by decide)]
    exact hloop
  · show (if ([0, 0, 0, 0] : Bytes).take 4 = [] then none
      else match splitColon1 (recvLoop (([0, 0, 0, 0] : Bytes).drop 4)
        (bytesToNatBE (([0, 0, 0, 0] : Bytes).take 4)) []) with
        | none => none
        | some pr => some (pr.2, pr.1)) = none
    rw [if_neg (by decide)]
    have : recvLoop (([0, 0, 0, 0] : Bytes).drop 4)
        (bytesToNatBE (([0, 0, 0, 0] : Bytes).take 4)) [] = [] := by
      show recvLoop [] 0 [] = []
      exact hloop
    rw [this]
    rfl

/-- C6 witness: the 0-byte and 1,000,000-byte payloads of the claim
round-trip unchanged. -/
theorem c6_framing_roundtrip_witness :
    receive_raw (send_raw (List.replicate 1000000 7) ++ []) = List.replicate 1000000 7 ∧
    receive_raw (send_raw [] ++ []) = [] :=
  ⟨c6_framing_roundtrip.1 (List.replicate 1000000 7) []
      (by rw [List.length_replicate]; decide),
    c6_framing_roundtrip.1 [] [] (by decide)⟩

/-- C6 counterexample: a received length of 0 is not distinct from the
connection-closed failure — both produce the very same value, in the
monolithic version (`b''`) and in the `IOMixin` version (the error
result). -/
theorem c6_zero_frame_not_distinct_cex :
    receive_raw [0, 0, 0, 0] = receive_raw [] ∧
    io_receive_raw [0, 0, 0, 0] = io_receive_raw [] := by
  have hloop : recvLoop [] 0 [] = [] := by
    rw [recvLoop]
    simp
  constructor
  · show (if ([0, 0, 0, 0] : Bytes).take 4 = [] then []
      else recvLoop (([0, 0, 0, 0] : Bytes).drop 4)
        (bytesToNatBE (([0, 0, 0, 0] : Bytes).take 4)) []) = receive_raw []
    rw [if_neg (by decide)]
    show recvLoop [] 0 [] = receive_raw []
    rw [hloop]
    rfl
  · show (if ([0, 0, 0, 0] : Bytes).take 4 = [] then none
      else match splitColon1 (recvLoop (([0, 0, 0, 0] : Bytes).drop 4)
        (bytesToNatBE (([0, 0, 0, 0] : Bytes).take 4)) []) with
        | none => none
        | some pr => some (pr.2, pr.1)) = io_receive_raw []
    rw [if_neg (by decide)]
    show (match splitColon1 (recvLoop [] 0 []) with
      | none => none
      | some pr => some (pr.2, pr.1)) = io_receive_raw []
    rw [hloop]
    rfl

/-- C7 (amended): `send_message` is a no-op when not connected or without
a peer socket; when connected it encrypts the text with the session and
hands the result to `_send_raw` (the framing layer); but the send does
**not** increment the renewal message counter — that counter is
incremented when a regular chat message is received. -/
theorem c7_send_message_behavior (st : P2PConnection) (nonce : Bytes) (message : String) :
    ((¬ st.connected ∨ st.peer_socket = none) → st.send_message nonce message = (st, [])) ∧
    (∀ (sock : Nat) (key : Bytes), st.connected = true → st.peer_socket = some sock →
      st.crypto.session_key = some key →
      st.send_message nonce message =
        (st, [.send_raw (nonce ++ aesgcmEncrypt key nonce (strEncodeUtf8 message))])) ∧
    ((st.send_message nonce message).1.message_count = st.message_count) ∧
    (∀ (d pong_nonce : Bytes) (m : String),
      st.crypto.decrypt_message d = .ok m →
      strContainsSub m "__FILE_TRANSFER_ACCEPTED__" = false →
      strContainsSub m "__FILE_TRANSFER__" = false →
      strStartsWith m "__PING__" = false →
      strStartsWith m "__PONG__" = false →
      strStartsWith m "__FILE_ACCEPT__" = false →
      pyStrip m ≠ "__DISCONNECT__" →
      (st.receive_step (some d) pong_nonce).1.message_count = st.message_count + 1) := by
  refine ⟨fun hno => ?_, fun sock key hconn hsock hsk => ?_, ?_, ?_⟩
  · rw [P2PConnection.send_message, if_pos hno]
  · rw [P2PConnection.send_message,
      if_neg (by simp [hconn, hsock] : ¬ (¬ st.connected ∨ st.peer_socket = none))]
    simp only [encrypt_message_eq hsk]
  · rw [P2PConnection.send_message]
    split_ifs
    · rfl
    · cases h : st.crypto.encrypt_message nonce message <;> simp [h]
  · intro d pong_nonce m hdec hacc htr hping hpong haccept hdisc
    simp only [P2PConnection.receive_step, hdec]
    rw [if_neg (by simp [hacc])]
    rw [if_neg (show ¬ strContainsSub m "__FILE_TRANSFER__" = true by simp [htr])]
    simp only [P2PConnection.handle_ping_pong, hping, hpong, Bool.false_eq_true,
      if_false, P2PConnection.handle_file_transfer, haccept]
    rw [if_neg hdisc]

/-- C7 counterexample: at a connected instance with an established
session, a send takes place (the action list is nonempty), yet the message
counter stays 0 — it is not incremented by that send. -/
theorem c7_send_does_not_increment_cex :
    (stConnEx.send_message nonceEx "hello").2 ≠ [] ∧
    stConnEx.message_count = 0 ∧
    (stConnEx.send_message nonceEx "hello").1.message_count = 0 := by
  refine ⟨by decide, rfl, by decide⟩

/-- C8 (amended): the roles exchange combined payloads in fixed per-role
order — the initiator sends its public key and challenge, receives the
responder's public key, challenge and signature, and sends its own
signature; the responder mirrors.  TOFU verification runs only **after**
the signature exchange: a TOFU failure aborts the handshake (it returns
`False` and the connection is never reported established), but the
challenges were already signed and the signatures already exchanged. -/
theorem c8_handshake_order (cI cR : CryptoManager) (hmI hmR : KnownHostsManager)
    (challengeI challengeR : Bytes) (peerI peerR : String × Nat)
    (hI : peerI.1 ≠ "" ∧ peerI.2 ≠ 0) (hR : peerR.1 ≠ "" ∧ peerR.2 ≠ 0) :
    run_handshake cI cR hmI hmR challengeI challengeR peerI peerR =
      ((((verify_tofu_identity (derivedWith cI cR.private_key) hmI peerI.1 peerI.2).1,
        derivedWith cI cR.private_key,
        [.send_pk_challenge, .recv_pk_challenge_sig, .verify_sig true, .set_peer_key,
          .sign_peer_challenge, .send_sig] ++
          (if (verify_tofu_identity (derivedWith cI cR.private_key) hmI peerI.1 peerI.2).1
            then [.tofu_check true, .established] else [.tofu_check false]),
        (verify_tofu_identity (derivedWith cI cR.private_key) hmI peerI.1 peerI.2).2 ++
          (if (verify_tofu_identity (derivedWith cI cR.private_key) hmI peerI.1 peerI.2).1
            then ["Secure connection established"] else []))),
      (((verify_tofu_identity (derivedWith cR cI.private_key) hmR peerR.1 peerR.2).1,
        derivedWith cR cI.private_key,
        [.recv_pk_challenge, .set_peer_key, .sign_peer_challenge, .send_pk_challenge_sig,
          .recv_sig, .verify_sig true] ++
          (if (verify_tofu_identity (derivedWith cR cI.private_key) hmR peerR.1 peerR.2).1
            then [.tofu_check true, .established] else [.tofu_check false]),
        (verify_tofu_identity (derivedWith cR cI.private_key) hmR peerR.1 peerR.2).2 ++
          (if (verify_tofu_identity (derivedWith cR cI.private_key) hmR peerR.1 peerR.2).1
            then ["Secure connection established"] else [])))) :=
  run_handshake_spec cI cR hmI hmR challengeI challengeR peerI peerR hI hR

/-- C8 witness: the responder's step sequence in a concrete run whose
TOFU check fails. -/
theorem c8_handshake_order_witness :
    (run_handshake cmExA cmExB hmEmpty hmEmpty [1] [2]
      ("10.0.0.1", 1) ("10.0.0.2", 2)).2.2.2.1 =
      [.recv_pk_challenge, .set_peer_key, .sign_peer_challenge, .send_pk_challenge_sig,
        .recv_sig, .verify_sig true, .tofu_check false] := by
  rw [c8_handshake_order cmExA cmExB hmEmpty hmEmpty [1] [2]
    ("10.0.0.1", 1) ("10.0.0.2", 2) ⟨by decide, by decide⟩ ⟨by decide, by decide⟩]
  decide

/-- C8 counterexample: a concrete run in which TOFU fails, yet the
initiator's trace shows the peer's challenge being signed and the
signature sent **before** the TOFU check — the handshake does not abort
before the challenge/signature exchange, contrary to the claim. -/
theorem c8_tofu_not_before_signatures_cex :
    (run_handshake cmExA cmExB hmEmpty hmEmpty [1] [2]
      ("10.0.0.1", 1) ("10.0.0.2", 2)).1.1 = false ∧
    (run_handshake cmExA cmExB hmEmpty hmEmpty [1] [2]
      ("10.0.0.1", 1) ("10.0.0.2", 2)).1.2.2.1 =
      [.send_pk_challenge, .recv_pk_challenge_sig, .verify_sig true, .set_peer_key,
        .sign_peer_challenge, .send_sig, .tofu_check false] := by
  rw [run_handshake_spec cmExA cmExB hmEmpty hmEmpty [1] [2]
    ("10.0.0.1", 1) ("10.0.0.2", 2) ⟨by decide, by decide⟩ ⟨by decide, by decide⟩]
  constructor
  · decide
  · decide

/-- C9: `add_host` succeeds exactly when the fingerprint is a 64-character
hexadecimal string and the address passes the code's syntactic validation;
on success it records the entry (keeping every stored fingerprint a
64-character hex string) and saves the file; on any invalid input it
returns `False` and leaves the store untouched, in memory and on disk. -/
theorem c9_add_host_validation (hm : KnownHostsManager) (address fingerprint : String) :
    ((hm.add_host address fingerprint).1 = true ↔
      KnownHostsManager.validate_fingerprint fingerprint = true ∧
      KnownHostsManager.validate_address address = true) ∧
    ((hm.add_host address fingerprint).1 = true →
      (hm.add_host address fingerprint).2.1.hosts = dictSet hm.hosts address fingerprint ∧
      fingerprint.length = 64 ∧
      (∀ c ∈ fingerprint.data, c ∈ "0123456789abcdefABCDEF".data) ∧
      HostsAction.save ∈ (hm.add_host address fingerprint).2.2) ∧
    ((hm.add_host address fingerprint).1 = false →
      (hm.add_host address fingerprint).2.1 = hm ∧
      HostsAction.save ∉ (hm.add_host address fingerprint).2.2) ∧
    ((∀ af ∈ hm.hosts, KnownHostsManager.validate_fingerprint af.2 = true) →
      ∀ af ∈ (hm.add_host address fingerprint).2.1.hosts,
        KnownHostsManager.validate_fingerprint af.2 = true) := by
  by_cases h1 : address = ""
  · subst h1
    rw [KnownHostsManager.add_host, if_pos rfl]
    refine ⟨?_, by simp, fun _ => ⟨rfl, by simp⟩, fun hinv => hinv⟩
    simp [validate_address_empty_false]
  · by_cases h2 : fingerprint = ""
    · rw [KnownHostsManager.add_host, if_neg h1, if_pos h2]
      refine ⟨⟨fun hf => absurd hf (by simp),
        fun hv => absurd h2 (validate_fingerprint_ne_empty hv.1)⟩,
        by simp, fun _ => ⟨rfl, by simp⟩, fun hinv => hinv⟩
    · by_cases h3 : KnownHostsManager.validate_fingerprint fingerprint = true
      · by_cases h4 : KnownHostsManager.validate_address address = true
        · rw [KnownHostsManager.add_host, if_neg h1, if_neg h2,
            if_neg (not_not_intro h3), if_neg (not_not_intro h4)]
          have hlen : fingerprint.length = 64 ∧
              ∀ c ∈ fingerprint.data, c ∈ "0123456789abcdefABCDEF".data := by
            rw [KnownHostsManager.validate_fingerprint, Bool.and_eq_true] at h3
            obtain ⟨hl, hall⟩ := h3
            refine ⟨of_decide_eq_true hl, fun c hc => ?_⟩
            rw [List.all_eq_true] at hall
            exact List.elem_iff.mp (hall c hc)
          refine ⟨by simp [h3, h4], fun _ => ⟨rfl, hlen.1, hlen.2, by simp⟩,
            by simp, fun hinv af haf => ?_⟩
          rcases mem_dictSet haf with h | h
          · exact hinv af h
          · rw [h]
            exact h3
        · rw [KnownHostsManager.add_host, if_neg h1, if_neg h2,
            if_neg (not_not_intro h3), if_pos h4]
          refine ⟨⟨fun hf => absurd hf (by simp), fun hv => absurd hv.2 h4⟩,
            by simp, fun _ => ⟨rfl, by simp⟩, fun hinv => hinv⟩
      · rw [KnownHostsManager.add_host, if_neg h1, if_neg h2, if_pos h3]
        refine ⟨⟨fun hf => absurd hf (by simp), fun hv => absurd hv.1 h3⟩,
          by simp, fun _ => ⟨rfl, by simp⟩, fun hinv => hinv⟩

end Cig
